import Mathlib

/-!
Shallow embedding of `src/services/metric/metric.py`, the reconciler's
stream-join engine: an in-memory buffer keyed by `str(msg["id"])` joins the
`y_true` and `y_pred` message streams, emits one reconciled CSV row per
completed join, and evicts entries older than a TTL.

Modelling choices:
* Python `dict` becomes an association list `List (String × α)`; insertion
  appends at the end (Python dicts are insertion-ordered), `del` removes the
  key, duplicate keys never arise in reachable states.
* Python `float` values and `time.time()` timestamps become `ℚ` (the values
  exercised by the spec are exact dyadic rationals, so no rounding occurs).
* The CSV sink becomes a list of appended rows; `append_metric_row` is the
  only operation that can raise mid-chain, modelled by a `sinkOk : Bool`
  oracle: when the append is reached and `sinkOk = false`, the handler takes
  the `except` path (`basic_nack(requeue=True)`) with the buffer exactly as
  it was when the append raised.
* One `now : ℚ` per handler invocation stands for the `time.time()` calls
  made during that invocation.
-/

namespace Metric

/-! ### Association-list primitives standing for the Python dict operations -/

/-- First-match lookup in an association list (Python `d[k]` / `k in d`). -/
def lookupKey {α : Type} : List (String × α) → String → Option α
  | [], _ => none
  | (k, v) :: rest, key => if k = key then some v else lookupKey rest key

/-- Replace the value at a key in place, appending at the end when the key is
absent (Python `d[k] = v`). -/
def setEntry {α : Type} : List (String × α) → String → α → List (String × α)
  | [], key, v => [(key, v)]
  | (k, w) :: rest, key, v =>
    if k = key then (key, v) :: rest else (k, w) :: setEntry rest key v

/-- Remove a key (Python `del d[k]`, a no-op when the key is absent). -/
def eraseKey {α : Type} (l : List (String × α)) (key : String) :
    List (String × α) :=
  l.filter (fun p => decide (p.1 ≠ key))

/-- The keys of an association list. -/
def keysOf {α : Type} (l : List (String × α)) : List String :=
  l.map Prod.fst

/-! ### Data model -/

/-- One partial join state: `buffer[message_id] = {"y_true": …, "y_pred": …}`
(metric.py line 134), with `None` as `Option.none`. -/
structure BufferEntry where
  y_true : Option ℚ
  y_pred : Option ℚ
  deriving DecidableEq

/-- One reconciled CSV row as written by `append_metric_row`. -/
structure Row where
  id : String
  y_true : ℚ
  y_pred : ℚ
  absolute_error : ℚ
  deriving DecidableEq

/-- The reconciler's whole mutable state: the join buffer, the first-seen
timestamp map `buffer_ts`, and the rows appended to the CSV sink so far. -/
structure MetricState where
  buffer : List (String × BufferEntry)
  buffer_ts : List (String × ℚ)
  sink : List Row
  deriving DecidableEq

/-- State at process start: empty buffer, empty timestamp map, no rows. -/
def initState : MetricState := ⟨[], [], []⟩

/-- Outcome reported to the broker for one inbound message:
`basic_ack` or `basic_nack(requeue=True)`. -/
inductive Ack where
  | ack
  | nackRequeue
  deriving DecidableEq

/-! ### JSON payload model and Python coercions

`JVal` covers the JSON scalars the two metric streams carry (arrays and
nested objects only occur on the features stream and are omitted; as message
bodies they would fail `float(...)` like `jnull` does). -/

inductive JVal where
  | jnull
  | jbool (b : Bool)
  | jint (n : ℤ)
  | jfloat (q : ℚ)
  | jstr (s : String)
  deriving DecidableEq

/-- Decimal digits of the fraction `rem / den` (`0 ≤ rem < den`), produced by
long division, with fuel bounding the output at 17 digits as Python float
repr does; terminates early when the expansion ends. -/
def fracDigits : ℕ → ℕ → ℕ → String
  | 0, _, _ => ""
  | n + 1, rem, den =>
    if rem = 0 then ""
    else Nat.repr (rem * 10 / den) ++ fracDigits n (rem * 10 % den) den

/-- Decimal form of a nonnegative rational, as Python `str` renders the
corresponding float: integer part, a dot, then the fractional digits (`"0"`
when the value is integral). Covers the plain-decimal regime of float repr;
the exponent regime for very large or small magnitudes is out of scope. -/
def floatReprAbs (q : ℚ) : String :=
  Nat.repr (q.num.toNat / q.den) ++ "."
    ++ (if q.num.toNat % q.den = 0 then "0"
        else fracDigits 17 (q.num.toNat % q.den) q.den)

/-- Python `str` of a float modelled as the exact rational it denotes. -/
def floatRepr (q : ℚ) : String :=
  if q < 0 then "-" ++ floatReprAbs (-q) else floatReprAbs q

/-- Python `str(...)` applied to a decoded JSON scalar, as in
`message_id = str(msg["id"])` (metric.py lines 130 and 152). -/
def pyStr : JVal → String
  | JVal.jnull => "None"
  | JVal.jbool b => if b then "True" else "False"
  | JVal.jint n => toString n
  | JVal.jfloat q => floatRepr q
  | JVal.jstr s => s

/-- Digit string to the natural number it denotes. -/
def natOfDigits (cs : List Char) : ℕ :=
  cs.foldl (fun a c => a * 10 + (c.toNat - 48)) 0

/-- Unsigned part of Python `float(string)`: digits with at most one dot,
at least one digit overall. Models the finite-decimal fragment accepted by
`float` (exponents, `inf`/`nan`, underscores and padding whitespace are out
of scope for the payloads of these streams). -/
def parseUnsignedFloat (cs : List Char) : Option ℚ :=
  let intPart := cs.takeWhile Char.isDigit
  match cs.dropWhile Char.isDigit with
  | [] => if intPart.isEmpty then none else some (natOfDigits intPart : ℚ)
  | c :: rest =>
    if c = '.' then
      if rest.all Char.isDigit && (!intPart.isEmpty || !rest.isEmpty) then
        some ((natOfDigits intPart : ℚ) + (natOfDigits rest : ℚ) / (10 : ℚ) ^ rest.length)
      else none
    else none

/-- Python `float(string)`: optional sign then an unsigned decimal. -/
def pyFloatOfString (s : String) : Option ℚ :=
  match s.toList with
  | [] => none
  | c :: cs =>
    if c = '-' then Option.map Neg.neg (parseUnsignedFloat cs)
    else if c = '+' then parseUnsignedFloat cs
    else parseUnsignedFloat (c :: cs)

/-- Python `float(...)` applied to a decoded JSON scalar, as in
`float(msg["body"])` (metric.py lines 131 and 153): `none` means the call
raises (`TypeError` / `ValueError`). `float(True) = 1.0` in Python. -/
def pyFloat : JVal → Option ℚ
  | JVal.jnull => none
  | JVal.jbool b => some (if b then 1 else 0)
  | JVal.jint n => some (n : ℚ)
  | JVal.jfloat q => some q
  | JVal.jstr s => pyFloatOfString s

/-- An inbound message body: either bytes on which `json.loads` raises (or
whose top level is not an object, so that `msg["id"]` raises), or the decoded
object's fields. `json.loads` resolves duplicate keys to the last one, so the
field list of a decoded object has distinct keys. -/
inductive Payload where
  | malformed
  | obj (fields : List (String × JVal))

/-- The decode prefix of both handlers (metric.py lines 129-131 and 151-153):
`json.loads`, then `str(msg["id"])`, then `float(msg["body"])`. `none` means
some step raised, sending the handler to its `except` branch. -/
def decodeMsg : Payload → Option (String × ℚ)
  | Payload.malformed => none
  | Payload.obj fields =>
    match lookupKey fields "id" with
    | none => none
    | some idv =>
      match lookupKey fields "body" with
      | none => none
      | some bodyv =>
        match pyFloat bodyv with
        | none => none
        | some q => some (pyStr idv, q)

/-! ### Core operations of metric.py -/

/-- `to_delete` of `cleanup_old_records` (metric.py lines 114-117): the ids
whose entry has outlived the TTL at time `now`. -/
def expiredIds (ts : List (String × ℚ)) (now ttl : ℚ) : List String :=
  keysOf (ts.filter (fun p => decide (now - p.2 > ttl)))

/-- `cleanup_old_records` (metric.py lines 108-122): collect the expired ids
from `buffer_ts`, then delete each from `buffer` (when present) and from
`buffer_ts`. -/
def cleanup_old_records (s : MetricState) (now ttl : ℚ) : MetricState :=
  let to_delete := expiredIds s.buffer_ts now ttl
  { s with
    buffer := s.buffer.filter (fun p => decide (p.1 ∉ to_delete))
    buffer_ts := s.buffer_ts.filter (fun p => decide (p.1 ∉ to_delete)) }

/-- Whether `try_finalize` reaches the `append_metric_row` call for this id:
the entry exists and both sides are set (metric.py lines 86-95). This is the
only point of the handler chain that performs I/O and can raise. -/
def sinkAppendReached (s : MetricState) (message_id : String) : Bool :=
  match lookupKey s.buffer message_id with
  | none => false
  | some e => e.y_true.isSome && e.y_pred.isSome

/-- `try_finalize` (metric.py lines 79-106), successful-append path: when the
entry exists and both sides are set, compute `absolute_error`, append the row,
and delete the entry from `buffer` and `buffer_ts`; otherwise return with no
effect. -/
def try_finalize (s : MetricState) (message_id : String) : MetricState :=
  match lookupKey s.buffer message_id with
  | none => s
  | some e =>
    match e.y_true, e.y_pred with
    | some y_true_val, some y_pred_val =>
      { buffer := eraseKey s.buffer message_id
        buffer_ts := eraseKey s.buffer_ts message_id
        sink := s.sink ++ [⟨message_id, y_true_val, y_pred_val, |y_true_val - y_pred_val|⟩] }
    | _, _ => s

/-- The buffer upsert of `on_y_true` (metric.py lines 133-137): create the
entry with `firstSeenAt = now` when absent, then set the `y_true` side. -/
def upsert_y_true (s : MetricState) (message_id : String) (v now : ℚ) :
    MetricState :=
  match lookupKey s.buffer message_id with
  | none =>
    { s with
      buffer := s.buffer ++ [(message_id, ⟨some v, none⟩)]
      buffer_ts := s.buffer_ts ++ [(message_id, now)] }
  | some e =>
    { s with buffer := setEntry s.buffer message_id { e with y_true := some v } }

/-- The buffer upsert of `on_y_pred` (metric.py lines 155-159). -/
def upsert_y_pred (s : MetricState) (message_id : String) (v now : ℚ) :
    MetricState :=
  match lookupKey s.buffer message_id with
  | none =>
    { s with
      buffer := s.buffer ++ [(message_id, ⟨none, some v⟩)]
      buffer_ts := s.buffer_ts ++ [(message_id, now)] }
  | some e =>
    { s with buffer := setEntry s.buffer message_id { e with y_pred := some v } }

/-- `on_y_true` (metric.py lines 124-144). Decode failure takes the `except`
branch: `basic_nack(requeue=True)` with no state mutated. Otherwise upsert,
`try_finalize`, `cleanup_old_records`, then `basic_ack`; if the sink append
raises (`sinkOk = false` and the append is reached), the chain aborts there
and the `except` branch nacks with the state as of the raise. -/
def on_y_true (ttl : ℚ) (sinkOk : Bool) (s : MetricState) (p : Payload)
    (now : ℚ) : MetricState × Ack :=
  match decodeMsg p with
  | none => (s, Ack.nackRequeue)
  | some (message_id, v) =>
    let s1 := upsert_y_true s message_id v now
    if !sinkOk && sinkAppendReached s1 message_id then (s1, Ack.nackRequeue)
    else (cleanup_old_records (try_finalize s1 message_id) now ttl, Ack.ack)

/-- `on_y_pred` (metric.py lines 146-166), symmetric to `on_y_true`. -/
def on_y_pred (ttl : ℚ) (sinkOk : Bool) (s : MetricState) (p : Payload)
    (now : ℚ) : MetricState × Ack :=
  match decodeMsg p with
  | none => (s, Ack.nackRequeue)
  | some (message_id, v) =>
    let s1 := upsert_y_pred s message_id v now
    if !sinkOk && sinkAppendReached s1 message_id then (s1, Ack.nackRequeue)
    else (cleanup_old_records (try_finalize s1 message_id) now ttl, Ack.ack)

/-! ### Reachability -/

/-- One consumed inbound message: the consumer loop is sequential, so a step
is a single handler invocation on either stream, at some time, with the sink
either healthy or raising. -/
inductive Step (ttl : ℚ) : MetricState → MetricState → Prop
  | trueMsg (s : MetricState) (sinkOk : Bool) (p : Payload) (now : ℚ) :
      Step ttl s (on_y_true ttl sinkOk s p now).1
  | predMsg (s : MetricState) (sinkOk : Bool) (p : Payload) (now : ℚ) :
      Step ttl s (on_y_pred ttl sinkOk s p now).1

/-- States reachable from process start by consuming messages. -/
def Reachable (ttl : ℚ) (s : MetricState) : Prop :=
  Relation.ReflTransGen (Step ttl) initState s

/-- The store invariants of reachable states: every entry has at least one
side set, `buffer` and `buffer_ts` hold exactly the same identifiers, and
neither map has a duplicated key. -/
def Inv (s : MetricState) : Prop :=
  (∀ k e, lookupKey s.buffer k = some e → e.y_true.isSome ∨ e.y_pred.isSome) ∧
  (∀ k, (lookupKey s.buffer k).isSome ↔ (lookupKey s.buffer_ts k).isSome) ∧
  (keysOf s.buffer).Nodup ∧ (keysOf s.buffer_ts).Nodup

/-- The step from `s` to `s'` removed identifier `k` by finalizing it: the
step appended exactly one reconciled row, bearing `k`. -/
def FinalizedAt (s s' : MetricState) (k : String) : Prop :=
  ∃ vt vp, s'.sink = s.sink ++ [⟨k, vt, vp, |vt - vp|⟩]

/-- The step from `s` to `s'` (a handler invocation at time `now`) removed
identifier `k` by evicting it: its entry had outlived the TTL, and no row
bearing `k` was appended by the step. -/
def EvictedAt (ttl : ℚ) (s s' : MetricState) (k : String) (now : ℚ) : Prop :=
  (∃ t, lookupKey s.buffer_ts k = some t ∧ now - t > ttl) ∧
  (s'.sink = s.sink ∨ ∃ r, s'.sink = s.sink ++ [r] ∧ r.id ≠ k)

/-! ### Association-list lemmas -/

@[simp] theorem lookupKey_nil {α : Type} (key : String) :
    lookupKey ([] : List (String × α)) key = none := rfl

@[simp] theorem lookupKey_cons {α : Type} (k : String) (v : α)
    (rest : List (String × α)) (key : String) :
    lookupKey ((k, v) :: rest) key
      = if k = key then some v else lookupKey rest key := rfl

theorem lookupKey_append_of_none {α : Type} {l1 : List (String × α)}
    {key : String} (l2 : List (String × α)) (h : lookupKey l1 key = none) :
    lookupKey (l1 ++ l2) key = lookupKey l2 key := by
  induction l1 with
  | nil => simp
  | cons p rest ih =>
    obtain ⟨k, v⟩ := p
    by_cases hk : k = key
    · simp [hk] at h
    · simp only [lookupKey_cons, hk, if_false] at h ⊢
      rw [List.cons_append]
      simp only [lookupKey_cons, hk, if_false]
      exact ih h

theorem lookupKey_append_of_some {α : Type} {l1 : List (String × α)}
    {key : String} {v : α} (l2 : List (String × α))
    (h : lookupKey l1 key = some v) :
    lookupKey (l1 ++ l2) key = some v := by
  induction l1 with
  | nil => simp at h
  | cons p rest ih =>
    obtain ⟨k, w⟩ := p
    by_cases hk : k = key
    · simp [hk] at h ⊢
      exact h
    · simp only [lookupKey_cons, hk, if_false] at h
      rw [List.cons_append]
      simp only [lookupKey_cons, hk, if_false]
      exact ih h

theorem lookupKey_filterKey {α : Type} (q : String → Bool)
    (l : List (String × α)) (key : String) :
    lookupKey (l.filter (fun p => q p.1)) key
      = if q key then lookupKey l key else none := by
  induction l with
  | nil => simp
  | cons p rest ih =>
    obtain ⟨k, v⟩ := p
    by_cases hk : k = key
    · subst hk
      by_cases hq : q k
      · simp [List.filter_cons, hq, ih]
      · simp only [Bool.not_eq_true] at hq
        simp [List.filter_cons, hq, ih]
    · by_cases hq : q k
      · simp [List.filter_cons, hq, hk, ih]
      · simp only [Bool.not_eq_true] at hq
        simp [List.filter_cons, hq, hk, ih]

@[simp] theorem eraseKey_nil {α : Type} (key : String) :
    eraseKey ([] : List (String × α)) key = [] := rfl

theorem eraseKey_cons {α : Type} (k : String) (v : α)
    (rest : List (String × α)) (key : String) :
    eraseKey ((k, v) :: rest) key
      = if k = key then eraseKey rest key else (k, v) :: eraseKey rest key := by
  by_cases hk : k = key
  · simp [eraseKey, List.filter_cons, hk]
  · simp [eraseKey, List.filter_cons, hk]

@[simp] theorem lookupKey_eraseKey_self {α : Type} (l : List (String × α))
    (key : String) : lookupKey (eraseKey l key) key = none := by
  induction l with
  | nil => simp
  | cons p rest ih =>
    obtain ⟨k, v⟩ := p
    rw [eraseKey_cons]
    by_cases hk : k = key
    · simp [hk, ih]
    · simp [hk, ih]

theorem lookupKey_eraseKey_ne {α : Type} (l : List (String × α))
    {key key' : String} (h : key' ≠ key) :
    lookupKey (eraseKey l key) key' = lookupKey l key' := by
  induction l with
  | nil => simp
  | cons p rest ih =>
    obtain ⟨k, v⟩ := p
    rw [eraseKey_cons]
    by_cases hk : k = key
    · subst hk
      have hk' : ¬k = key' := fun h2 => h h2.symm
      simp [hk', ih]
    · simp [hk, ih]

@[simp] theorem lookupKey_setEntry_self {α : Type} (l : List (String × α))
    (key : String) (v : α) : lookupKey (setEntry l key v) key = some v := by
  induction l with
  | nil => simp [setEntry]
  | cons p rest ih =>
    obtain ⟨k, w⟩ := p
    by_cases hk : k = key
    · simp [setEntry, hk]
    · simp [setEntry, hk, ih]

theorem lookupKey_setEntry_ne {α : Type} (l : List (String × α))
    {key key' : String} (v : α) (h : key' ≠ key) :
    lookupKey (setEntry l key v) key' = lookupKey l key' := by
  induction l with
  | nil =>
    have h' : ¬key = key' := fun h2 => h h2.symm
    simp [setEntry, h']
  | cons p rest ih =>
    obtain ⟨k, w⟩ := p
    by_cases hk : k = key
    · subst hk
      have h' : ¬k = key' := fun h2 => h h2.symm
      simp [setEntry, h', ih]
    · simp [setEntry, hk, ih]

theorem eraseKey_setEntry {α : Type} (l : List (String × α)) (key : String)
    (v : α) : eraseKey (setEntry l key v) key = eraseKey l key := by
  induction l with
  | nil => simp [setEntry, eraseKey_cons]
  | cons p rest ih =>
    obtain ⟨k, w⟩ := p
    by_cases hk : k = key
    · subst hk
      simp [setEntry, eraseKey_cons]
    · simp [setEntry, hk, eraseKey_cons, ih]

theorem setEntry_append_last {α : Type} {l : List (String × α)} {key : String}
    (v w : α) (h : lookupKey l key = none) :
    setEntry (l ++ [(key, v)]) key w = l ++ [(key, w)] := by
  induction l with
  | nil => simp [setEntry]
  | cons p rest ih =>
    obtain ⟨k, u⟩ := p
    by_cases hk : k = key
    · simp [hk] at h
    · simp only [lookupKey_cons, hk, if_false] at h
      simp [setEntry, hk, ih h]

theorem lookupKey_eq_none_iff {α : Type} (l : List (String × α))
    (key : String) : lookupKey l key = none ↔ key ∉ keysOf l := by
  induction l with
  | nil => simp [keysOf]
  | cons p rest ih =>
    obtain ⟨k, v⟩ := p
    simp only [keysOf, List.map_cons, List.mem_cons] at ih ⊢
    by_cases hk : k = key
    · simp [hk]
    · have hk' : ¬key = k := fun h2 => hk h2.symm
      simp [hk, hk', ih]

theorem mem_of_lookupKey_eq_some {α : Type} {l : List (String × α)}
    {key : String} {v : α} (h : lookupKey l key = some v) : (key, v) ∈ l := by
  induction l with
  | nil => simp at h
  | cons p rest ih =>
    obtain ⟨k, w⟩ := p
    by_cases hk : k = key
    · subst hk
      simp at h
      simp [h]
    · simp only [lookupKey_cons, hk, if_false] at h
      exact List.mem_cons_of_mem _ (ih h)

theorem lookupKey_eq_some_of_mem_nodup {α : Type} {l : List (String × α)}
    {key : String} {v : α} (hnd : (keysOf l).Nodup) (h : (key, v) ∈ l) :
    lookupKey l key = some v := by
  induction l with
  | nil => simp at h
  | cons p rest ih =>
    obtain ⟨k, w⟩ := p
    simp only [keysOf, List.map_cons, List.nodup_cons] at hnd
    rcases List.mem_cons.mp h with h1 | h1
    · injection h1 with hk hv
      subst hk
      subst hv
      simp
    · by_cases hk : k = key
      · exfalso
        apply hnd.1
        subst hk
        exact List.mem_map.mpr ⟨(k, v), h1, rfl⟩
      · simpa [hk] using ih hnd.2 h1

theorem keysOf_append {α : Type} (l1 l2 : List (String × α)) :
    keysOf (l1 ++ l2) = keysOf l1 ++ keysOf l2 := by
  simp [keysOf]

theorem keysOf_filterKey {α : Type} (q : String → Bool)
    (l : List (String × α)) :
    keysOf (l.filter (fun p => q p.1)) = (keysOf l).filter q := by
  induction l with
  | nil => simp [keysOf]
  | cons p rest ih =>
    simp only [keysOf] at ih ⊢
    by_cases hq : q p.1
    · simp [List.filter_cons, hq, ih]
    · simp only [Bool.not_eq_true] at hq
      simp [List.filter_cons, hq, ih]

theorem keysOf_setEntry_of_some {α : Type} {l : List (String × α)}
    {key : String} {e : α} (v : α) (h : lookupKey l key = some e) :
    keysOf (setEntry l key v) = keysOf l := by
  induction l with
  | nil => simp at h
  | cons p rest ih =>
    obtain ⟨k, w⟩ := p
    simp only [keysOf] at ih ⊢
    by_cases hk : k = key
    · simp [setEntry, hk]
    · simp only [lookupKey_cons, hk, if_false] at h
      simp [setEntry, hk, ih h]

/-! ### Lemmas about `expiredIds` and `cleanup_old_records` -/

theorem mem_expiredIds {ts : List (String × ℚ)} {now ttl : ℚ} {key : String} :
    key ∈ expiredIds ts now ttl ↔ ∃ t, (key, t) ∈ ts ∧ now - t > ttl := by
  simp only [expiredIds, keysOf, List.mem_map, List.mem_filter]
  constructor
  · rintro ⟨⟨k, t⟩, ⟨hmem, hexp⟩, rfl⟩
    exact ⟨t, hmem, by simpa using hexp⟩
  · rintro ⟨t, hmem, hexp⟩
    exact ⟨(key, t), ⟨hmem, by simpa using hexp⟩, rfl⟩

theorem notMem_expiredIds_of_none {ts : List (String × ℚ)} {now ttl : ℚ}
    {key : String} (h : lookupKey ts key = none) :
    key ∉ expiredIds ts now ttl := by
  rw [mem_expiredIds]
  rintro ⟨t, hmem, _⟩
  rw [lookupKey_eq_none_iff] at h
  exact h (List.mem_map.mpr ⟨(key, t), hmem, rfl⟩)

theorem mem_expiredIds_of_lookup {ts : List (String × ℚ)} {now ttl : ℚ}
    {key : String} {t : ℚ} (hnd : (keysOf ts).Nodup)
    (h : lookupKey ts key = some t) :
    key ∈ expiredIds ts now ttl ↔ now - t > ttl := by
  constructor
  · rw [mem_expiredIds]
    rintro ⟨t2, hmem, hexp⟩
    have h2 := lookupKey_eq_some_of_mem_nodup hnd hmem
    rw [h] at h2
    injection h2 with h3
    exact h3 ▸ hexp
  · intro hexp
    exact mem_expiredIds.mpr ⟨t, mem_of_lookupKey_eq_some h, hexp⟩

theorem expiredIds_append (l1 l2 : List (String × ℚ)) (now ttl : ℚ) :
    expiredIds (l1 ++ l2) now ttl
      = expiredIds l1 now ttl ++ expiredIds l2 now ttl := by
  simp [expiredIds, keysOf]

theorem expiredIds_single_of_le {now ttl t : ℚ} (key : String)
    (h : now - t ≤ ttl) : expiredIds [(key, t)] now ttl = [] := by
  have h2 : ¬now - t > ttl := not_lt_of_le h
  simp [expiredIds, keysOf, List.filter_cons, h2]

theorem expiredIds_single_fresh {now ttl : ℚ} (key : String) (httl : 0 ≤ ttl) :
    expiredIds [(key, now)] now ttl = [] :=
  expiredIds_single_of_le key (by simpa using httl)

@[simp] theorem cleanup_sink (s : MetricState) (now ttl : ℚ) :
    (cleanup_old_records s now ttl).sink = s.sink := rfl

theorem lookupKey_cleanup_buffer (s : MetricState) (now ttl : ℚ)
    (key : String) :
    lookupKey (cleanup_old_records s now ttl).buffer key
      = if key ∈ expiredIds s.buffer_ts now ttl then none
        else lookupKey s.buffer key := by
  have h := lookupKey_filterKey
    (fun k0 => decide (k0 ∉ expiredIds s.buffer_ts now ttl)) s.buffer key
  by_cases hmem : key ∈ expiredIds s.buffer_ts now ttl
  · simp [hmem] at h
    simpa [cleanup_old_records, hmem] using h
  · simp [hmem] at h
    simpa [cleanup_old_records, hmem] using h

theorem lookupKey_cleanup_buffer_ts (s : MetricState) (now ttl : ℚ)
    (key : String) :
    lookupKey (cleanup_old_records s now ttl).buffer_ts key
      = if key ∈ expiredIds s.buffer_ts now ttl then none
        else lookupKey s.buffer_ts key := by
  have h := lookupKey_filterKey
    (fun k0 => decide (k0 ∉ expiredIds s.buffer_ts now ttl)) s.buffer_ts key
  by_cases hmem : key ∈ expiredIds s.buffer_ts now ttl
  · simp [hmem] at h
    simpa [cleanup_old_records, hmem] using h
  · simp [hmem] at h
    simpa [cleanup_old_records, hmem] using h

/-! ### Lemmas about the upserts, `try_finalize` and the handlers -/

theorem upsert_y_true_of_none {s : MetricState} {key : String} (v now : ℚ)
    (h : lookupKey s.buffer key = none) :
    upsert_y_true s key v now
      = { s with buffer := s.buffer ++ [(key, ⟨some v, none⟩)]
                 buffer_ts := s.buffer_ts ++ [(key, now)] } := by
  simp [upsert_y_true, h]

theorem upsert_y_true_of_some {s : MetricState} {key : String}
    {e : BufferEntry} (v now : ℚ) (h : lookupKey s.buffer key = some e) :
    upsert_y_true s key v now
      = { s with buffer := setEntry s.buffer key { e with y_true := some v } } := by
  simp [upsert_y_true, h]

theorem upsert_y_pred_of_none {s : MetricState} {key : String} (v now : ℚ)
    (h : lookupKey s.buffer key = none) :
    upsert_y_pred s key v now
      = { s with buffer := s.buffer ++ [(key, ⟨none, some v⟩)]
                 buffer_ts := s.buffer_ts ++ [(key, now)] } := by
  simp [upsert_y_pred, h]

theorem upsert_y_pred_of_some {s : MetricState} {key : String}
    {e : BufferEntry} (v now : ℚ) (h : lookupKey s.buffer key = some e) :
    upsert_y_pred s key v now
      = { s with buffer := setEntry s.buffer key { e with y_pred := some v } } := by
  simp [upsert_y_pred, h]

theorem try_finalize_of_none {s : MetricState} {key : String}
    (h : lookupKey s.buffer key = none) : try_finalize s key = s := by
  simp [try_finalize, h]

theorem try_finalize_of_incomplete {s : MetricState} {key : String}
    {e : BufferEntry} (h : lookupKey s.buffer key = some e)
    (he : e.y_true = none ∨ e.y_pred = none) : try_finalize s key = s := by
  obtain ⟨t, p⟩ := e
  rcases he with he | he <;> subst he
  · simp [try_finalize, h]
  · cases t <;> simp [try_finalize, h]

theorem try_finalize_of_complete {s : MetricState} {key : String} {vt vp : ℚ}
    (h : lookupKey s.buffer key = some ⟨some vt, some vp⟩) :
    try_finalize s key
      = { buffer := eraseKey s.buffer key
          buffer_ts := eraseKey s.buffer_ts key
          sink := s.sink ++ [⟨key, vt, vp, |vt - vp|⟩] } := by
  simp [try_finalize, h]

theorem sinkAppendReached_of_none {s : MetricState} {key : String}
    (h : lookupKey s.buffer key = none) : sinkAppendReached s key = false := by
  simp [sinkAppendReached, h]

theorem sinkAppendReached_of_incomplete {s : MetricState} {key : String}
    {e : BufferEntry} (h : lookupKey s.buffer key = some e)
    (he : e.y_true = none ∨ e.y_pred = none) :
    sinkAppendReached s key = false := by
  obtain ⟨t, p⟩ := e
  rcases he with he | he <;> subst he
  · simp [sinkAppendReached, h]
  · simp [sinkAppendReached, h]

theorem sinkAppendReached_of_complete {s : MetricState} {key : String}
    {vt vp : ℚ} (h : lookupKey s.buffer key = some ⟨some vt, some vp⟩) :
    sinkAppendReached s key = true := by
  simp [sinkAppendReached, h]

theorem on_y_true_decode_fail (ttl : ℚ) (sinkOk : Bool) (s : MetricState)
    {p : Payload} (now : ℚ) (hdec : decodeMsg p = none) :
    on_y_true ttl sinkOk s p now = (s, Ack.nackRequeue) := by
  simp [on_y_true, hdec]

theorem on_y_pred_decode_fail (ttl : ℚ) (sinkOk : Bool) (s : MetricState)
    {p : Payload} (now : ℚ) (hdec : decodeMsg p = none) :
    on_y_pred ttl sinkOk s p now = (s, Ack.nackRequeue) := by
  simp [on_y_pred, hdec]

theorem on_y_true_some (ttl : ℚ) (s : MetricState) {p : Payload}
    {key : String} {v : ℚ} (now : ℚ) (hdec : decodeMsg p = some (key, v)) :
    on_y_true ttl true s p now
      = (cleanup_old_records (try_finalize (upsert_y_true s key v now) key)
          now ttl, Ack.ack) := by
  simp [on_y_true, hdec]

theorem on_y_pred_some (ttl : ℚ) (s : MetricState) {p : Payload}
    {key : String} {v : ℚ} (now : ℚ) (hdec : decodeMsg p = some (key, v)) :
    on_y_pred ttl true s p now
      = (cleanup_old_records (try_finalize (upsert_y_pred s key v now) key)
          now ttl, Ack.ack) := by
  simp [on_y_pred, hdec]

theorem on_y_true_sink_fail (ttl : ℚ) (s : MetricState) {p : Payload}
    {key : String} {v : ℚ} (now : ℚ) (hdec : decodeMsg p = some (key, v))
    (hreach : sinkAppendReached (upsert_y_true s key v now) key = true) :
    on_y_true ttl false s p now
      = (upsert_y_true s key v now, Ack.nackRequeue) := by
  simp [on_y_true, hdec, hreach]

theorem on_y_pred_sink_fail (ttl : ℚ) (s : MetricState) {p : Payload}
    {key : String} {v : ℚ} (now : ℚ) (hdec : decodeMsg p = some (key, v))
    (hreach : sinkAppendReached (upsert_y_pred s key v now) key = true) :
    on_y_pred ttl false s p now
      = (upsert_y_pred s key v now, Ack.nackRequeue) := by
  simp [on_y_pred, hdec, hreach]

theorem on_y_true_sink_fail_unreached (ttl : ℚ) (s : MetricState)
    {p : Payload} {key : String} {v : ℚ} (now : ℚ)
    (hdec : decodeMsg p = some (key, v))
    (hreach : sinkAppendReached (upsert_y_true s key v now) key = false) :
    on_y_true ttl false s p now
      = (cleanup_old_records (try_finalize (upsert_y_true s key v now) key)
          now ttl, Ack.ack) := by
  simp [on_y_true, hdec, hreach]

theorem on_y_pred_sink_fail_unreached (ttl : ℚ) (s : MetricState)
    {p : Payload} {key : String} {v : ℚ} (now : ℚ)
    (hdec : decodeMsg p = some (key, v))
    (hreach : sinkAppendReached (upsert_y_pred s key v now) key = false) :
    on_y_pred ttl false s p now
      = (cleanup_old_records (try_finalize (upsert_y_pred s key v now) key)
          now ttl, Ack.ack) := by
  simp [on_y_pred, hdec, hreach]

theorem on_y_true_chain (ttl : ℚ) (sinkOk : Bool) (s : MetricState)
    {p : Payload} {key : String} {v : ℚ} (now : ℚ)
    (hdec : decodeMsg p = some (key, v))
    (hfail : (!sinkOk && sinkAppendReached (upsert_y_true s key v now) key)
      = false) :
    on_y_true ttl sinkOk s p now
      = (cleanup_old_records (try_finalize (upsert_y_true s key v now) key)
          now ttl, Ack.ack) := by
  simp [on_y_true, hdec, hfail]

theorem on_y_pred_chain (ttl : ℚ) (sinkOk : Bool) (s : MetricState)
    {p : Payload} {key : String} {v : ℚ} (now : ℚ)
    (hdec : decodeMsg p = some (key, v))
    (hfail : (!sinkOk && sinkAppendReached (upsert_y_pred s key v now) key)
      = false) :
    on_y_pred ttl sinkOk s p now
      = (cleanup_old_records (try_finalize (upsert_y_pred s key v now) key)
          now ttl, Ack.ack) := by
  simp [on_y_pred, hdec, hfail]

/-! ### Shape of the state after fresh and joining messages -/

/-- After a fresh `y_true` message (identifier not yet buffered), the sweep
spares the new entry (its age is 0 ≤ TTL) and no row is emitted. -/
theorem fresh_true_state {s : MetricState} {key : String} (v now ttl : ℚ)
    (httl : 0 ≤ ttl) (hb : lookupKey s.buffer key = none)
    (ht : lookupKey s.buffer_ts key = none) :
    cleanup_old_records (try_finalize (upsert_y_true s key v now) key) now ttl
      = { buffer := s.buffer.filter
            (fun q => decide (q.1 ∉ expiredIds s.buffer_ts now ttl))
            ++ [(key, ⟨some v, none⟩)]
          buffer_ts := s.buffer_ts.filter
            (fun q => decide (q.1 ∉ expiredIds s.buffer_ts now ttl))
            ++ [(key, now)]
          sink := s.sink } := by
  rw [upsert_y_true_of_none v now hb]
  have hb1 : lookupKey (s.buffer ++ [(key, (⟨some v, none⟩ : BufferEntry))]) key
      = some ⟨some v, none⟩ := by
    rw [lookupKey_append_of_none _ hb]
    simp
  rw [@try_finalize_of_incomplete { s with
      buffer := s.buffer ++ [(key, ⟨some v, none⟩)]
      buffer_ts := s.buffer_ts ++ [(key, now)] } key _ hb1 (Or.inr rfl)]
  have hexp : expiredIds (s.buffer_ts ++ [(key, now)]) now ttl
      = expiredIds s.buffer_ts now ttl := by
    rw [expiredIds_append, expiredIds_single_fresh key httl, List.append_nil]
  have hkey : key ∉ expiredIds s.buffer_ts now ttl :=
    notMem_expiredIds_of_none ht
  simp [cleanup_old_records, hexp, List.filter_append, hkey]

/-- After a fresh `y_pred` message, symmetric to `fresh_true_state`. -/
theorem fresh_pred_state {s : MetricState} {key : String} (v now ttl : ℚ)
    (httl : 0 ≤ ttl) (hb : lookupKey s.buffer key = none)
    (ht : lookupKey s.buffer_ts key = none) :
    cleanup_old_records (try_finalize (upsert_y_pred s key v now) key) now ttl
      = { buffer := s.buffer.filter
            (fun q => decide (q.1 ∉ expiredIds s.buffer_ts now ttl))
            ++ [(key, ⟨none, some v⟩)]
          buffer_ts := s.buffer_ts.filter
            (fun q => decide (q.1 ∉ expiredIds s.buffer_ts now ttl))
            ++ [(key, now)]
          sink := s.sink } := by
  rw [upsert_y_pred_of_none v now hb]
  have hb1 : lookupKey (s.buffer ++ [(key, (⟨none, some v⟩ : BufferEntry))]) key
      = some ⟨none, some v⟩ := by
    rw [lookupKey_append_of_none _ hb]
    simp
  rw [@try_finalize_of_incomplete { s with
      buffer := s.buffer ++ [(key, ⟨none, some v⟩)]
      buffer_ts := s.buffer_ts ++ [(key, now)] } key _ hb1 (Or.inl rfl)]
  have hexp : expiredIds (s.buffer_ts ++ [(key, now)]) now ttl
      = expiredIds s.buffer_ts now ttl := by
    rw [expiredIds_append, expiredIds_single_fresh key httl, List.append_nil]
  have hkey : key ∉ expiredIds s.buffer_ts now ttl :=
    notMem_expiredIds_of_none ht
  simp [cleanup_old_records, hexp, List.filter_append, hkey]

/-- A `y_pred` message landing on an entry that already holds `y_true`
finalizes the join: row appended, entry removed, then the sweep runs on the
remaining entries. -/
theorem join_pred_state {s : MetricState} {key : String} {vt : ℚ}
    (vp now ttl : ℚ) (hb : lookupKey s.buffer key = some ⟨some vt, none⟩) :
    cleanup_old_records (try_finalize (upsert_y_pred s key vp now) key) now ttl
      = { buffer := (eraseKey s.buffer key).filter
            (fun q => decide (q.1 ∉ expiredIds (eraseKey s.buffer_ts key) now ttl))
          buffer_ts := (eraseKey s.buffer_ts key).filter
            (fun q => decide (q.1 ∉ expiredIds (eraseKey s.buffer_ts key) now ttl))
          sink := s.sink ++ [⟨key, vt, vp, |vt - vp|⟩] } := by
  rw [upsert_y_pred_of_some vp now hb]
  have hb1 : lookupKey (setEntry s.buffer key ⟨some vt, some vp⟩) key
      = some ⟨some vt, some vp⟩ := lookupKey_setEntry_self ..
  rw [@try_finalize_of_complete { s with
      buffer := setEntry s.buffer key ⟨some vt, some vp⟩ } key vt vp hb1]
  simp [cleanup_old_records, eraseKey_setEntry]

/-- A `y_true` message landing on an entry that already holds `y_pred`,
symmetric to `join_pred_state`; the row still reads `y_true - y_pred`. -/
theorem join_true_state {s : MetricState} {key : String} {vp : ℚ}
    (vt now ttl : ℚ) (hb : lookupKey s.buffer key = some ⟨none, some vp⟩) :
    cleanup_old_records (try_finalize (upsert_y_true s key vt now) key) now ttl
      = { buffer := (eraseKey s.buffer key).filter
            (fun q => decide (q.1 ∉ expiredIds (eraseKey s.buffer_ts key) now ttl))
          buffer_ts := (eraseKey s.buffer_ts key).filter
            (fun q => decide (q.1 ∉ expiredIds (eraseKey s.buffer_ts key) now ttl))
          sink := s.sink ++ [⟨key, vt, vp, |vt - vp|⟩] } := by
  rw [upsert_y_true_of_some vt now hb]
  have hb1 : lookupKey (setEntry s.buffer key ⟨some vt, some vp⟩) key
      = some ⟨some vt, some vp⟩ := lookupKey_setEntry_self ..
  rw [@try_finalize_of_complete { s with
      buffer := setEntry s.buffer key ⟨some vt, some vp⟩ } key vt vp hb1]
  simp [cleanup_old_records, eraseKey_setEntry]

theorem lookupKey_filter_of_none {α : Type} (f : String × α → Bool)
    {l : List (String × α)} {key : String} (h : lookupKey l key = none) :
    lookupKey (l.filter f) key = none := by
  induction l with
  | nil => simp
  | cons p rest ih =>
    obtain ⟨k, v⟩ := p
    by_cases hk : k = key
    · simp [hk] at h
    · simp only [lookupKey_cons, hk, if_false] at h
      by_cases hf : f (k, v)
      · simp [List.filter_cons, hf, hk, ih h]
      · simp only [Bool.not_eq_true] at hf
        simp [List.filter_cons, hf, ih h]

theorem eraseKey_append {α : Type} (l1 l2 : List (String × α)) (key : String) :
    eraseKey (l1 ++ l2) key = eraseKey l1 key ++ eraseKey l2 key := by
  simp [eraseKey]

theorem eraseKey_of_none {α : Type} {l : List (String × α)} {key : String}
    (h : lookupKey l key = none) : eraseKey l key = l := by
  rw [lookupKey_eq_none_iff] at h
  simp only [keysOf] at h
  apply List.filter_eq_self.mpr
  intro p hp
  simp only [decide_eq_true_eq]
  intro hk
  exact h (List.mem_map.mpr ⟨p, hp, hk⟩)

@[simp] theorem eraseKey_single_self {α : Type} (key : String) (v : α) :
    eraseKey [(key, v)] key = [] := by
  simp [eraseKey_cons]

theorem lookupKey_filter_notMem {α : Type} {D : List String} {key : String}
    (l : List (String × α)) (h : key ∉ D) :
    lookupKey (l.filter (fun q => decide (q.1 ∉ D))) key = lookupKey l key := by
  induction l with
  | nil => simp
  | cons p rest ih =>
    obtain ⟨k, v⟩ := p
    simp only [decide_not] at ih ⊢
    by_cases hk : k = key
    · subst hk
      simp [List.filter_cons, h, ih]
    · by_cases hmem : k ∈ D
      · simp [List.filter_cons, hmem, hk, ih]
      · simp [List.filter_cons, hmem, hk, ih]

/-- A duplicate `y_pred` message on an entry that holds only a prediction:
the value is overwritten in place, nothing finalizes, the sweep runs. -/
theorem dup_pred_state {s : MetricState} {key : String} {v0 : ℚ}
    (v now ttl : ℚ) (hb : lookupKey s.buffer key = some ⟨none, some v0⟩) :
    cleanup_old_records (try_finalize (upsert_y_pred s key v now) key) now ttl
      = { buffer := (setEntry s.buffer key ⟨none, some v⟩).filter
            (fun q => decide (q.1 ∉ expiredIds s.buffer_ts now ttl))
          buffer_ts := s.buffer_ts.filter
            (fun q => decide (q.1 ∉ expiredIds s.buffer_ts now ttl))
          sink := s.sink } := by
  rw [upsert_y_pred_of_some v now hb]
  have hb1 : lookupKey (setEntry s.buffer key ⟨none, some v⟩) key
      = some ⟨none, some v⟩ := lookupKey_setEntry_self ..
  rw [@try_finalize_of_incomplete { s with
      buffer := setEntry s.buffer key ⟨none, some v⟩ } key _ hb1 (Or.inl rfl)]
  simp [cleanup_old_records]

theorem lookupKey_append_single {α : Type} {l : List (String × α)}
    {key : String} (e : α) (k : String) (h : lookupKey l key = none) :
    lookupKey (l ++ [(key, e)]) k
      = if k = key then some e else lookupKey l k := by
  by_cases hk : k = key
  · subst hk
    rw [lookupKey_append_of_none _ h]
    simp
  · rcases hlk : lookupKey l k with _ | w
    · rw [lookupKey_append_of_none _ hlk]
      have hk2 : ¬key = k := fun h2 => hk h2.symm
      simp [hk, hk2]
    · rw [lookupKey_append_of_some _ hlk]
      simp [hk]

/-! ### The store invariants hold in every reachable state -/

theorem Inv_init : Inv initState := by
  refine ⟨?_, ?_, ?_, ?_⟩ <;> simp [initState, keysOf]

theorem Inv_cleanup {s : MetricState} (now ttl : ℚ) (hinv : Inv s) :
    Inv (cleanup_old_records s now ttl) := by
  obtain ⟨hsides, hdom, hndB, hndT⟩ := hinv
  refine ⟨?_, ?_, ?_, ?_⟩
  · intro k e h
    rw [lookupKey_cleanup_buffer] at h
    by_cases hmem : k ∈ expiredIds s.buffer_ts now ttl
    · rw [if_pos hmem] at h
      cases h
    · rw [if_neg hmem] at h
      exact hsides k e h
  · intro k
    rw [lookupKey_cleanup_buffer, lookupKey_cleanup_buffer_ts]
    by_cases hmem : k ∈ expiredIds s.buffer_ts now ttl
    · simp [hmem]
    · simpa [hmem] using hdom k
  · have h2 : keysOf (cleanup_old_records s now ttl).buffer
        = (keysOf s.buffer).filter
          (fun k0 => decide (k0 ∉ expiredIds s.buffer_ts now ttl)) :=
      keysOf_filterKey (fun k0 => decide (k0 ∉ expiredIds s.buffer_ts now ttl))
        s.buffer
    rw [h2]
    exact hndB.filter _
  · have h2 : keysOf (cleanup_old_records s now ttl).buffer_ts
        = (keysOf s.buffer_ts).filter
          (fun k0 => decide (k0 ∉ expiredIds s.buffer_ts now ttl)) :=
      keysOf_filterKey (fun k0 => decide (k0 ∉ expiredIds s.buffer_ts now ttl))
        s.buffer_ts
    rw [h2]
    exact hndT.filter _

theorem Inv_try_finalize {s : MetricState} (key : String) (hinv : Inv s) :
    Inv (try_finalize s key) := by
  obtain ⟨hsides, hdom, hndB, hndT⟩ := hinv
  rcases hl : lookupKey s.buffer key with _ | e
  · rw [try_finalize_of_none hl]
    exact ⟨hsides, hdom, hndB, hndT⟩
  · rcases het : e.y_true with _ | vt
    · rw [try_finalize_of_incomplete hl (Or.inl het)]
      exact ⟨hsides, hdom, hndB, hndT⟩
    · rcases hep : e.y_pred with _ | vp
      · rw [try_finalize_of_incomplete hl (Or.inr hep)]
        exact ⟨hsides, hdom, hndB, hndT⟩
      · have he : e = ⟨some vt, some vp⟩ := by
          obtain ⟨a, b⟩ := e
          simp at het hep
          rw [het, hep]
        rw [try_finalize_of_complete (he ▸ hl)]
        refine ⟨?_, ?_, ?_, ?_⟩
        · intro k e2 h
          by_cases hk : k = key
          · subst hk
            rw [lookupKey_eraseKey_self] at h
            cases h
          · rw [lookupKey_eraseKey_ne _ hk] at h
            exact hsides k e2 h
        · intro k
          by_cases hk : k = key
          · subst hk
            simp
          · rw [lookupKey_eraseKey_ne _ hk, lookupKey_eraseKey_ne _ hk]
            exact hdom k
        · have h2 : keysOf (eraseKey s.buffer key)
              = (keysOf s.buffer).filter (fun k0 => decide (k0 ≠ key)) :=
            keysOf_filterKey (fun k0 => decide (k0 ≠ key)) s.buffer
          rw [h2]
          exact hndB.filter _
        · have h2 : keysOf (eraseKey s.buffer_ts key)
              = (keysOf s.buffer_ts).filter (fun k0 => decide (k0 ≠ key)) :=
            keysOf_filterKey (fun k0 => decide (k0 ≠ key)) s.buffer_ts
          rw [h2]
          exact hndT.filter _

theorem Inv_upsert_y_true {s : MetricState} (key : String) (v now : ℚ)
    (hinv : Inv s) : Inv (upsert_y_true s key v now) := by
  obtain ⟨hsides, hdom, hndB, hndT⟩ := hinv
  rcases hl : lookupKey s.buffer key with _ | e
  · have hts : lookupKey s.buffer_ts key = none := by
      rcases h2 : lookupKey s.buffer_ts key with _ | t
      · rfl
      · exfalso
        have h3 := (hdom key).mpr (by simp [h2])
        rw [hl] at h3
        simp at h3
    rw [upsert_y_true_of_none v now hl]
    refine ⟨?_, ?_, ?_, ?_⟩
    · intro k e2 h
      rw [lookupKey_append_single _ k hl] at h
      by_cases hk : k = key
      · rw [if_pos hk] at h
        injection h with h2
        rw [← h2]
        simp
      · rw [if_neg hk] at h
        exact hsides k e2 h
    · intro k
      rw [lookupKey_append_single _ k hl, lookupKey_append_single _ k hts]
      by_cases hk : k = key
      · simp [hk]
      · simp only [if_neg hk]
        exact hdom k
    · rw [keysOf_append]
      simp only [keysOf, List.map]
      rw [List.nodup_append]
      refine ⟨hndB, List.nodup_singleton key, ?_⟩
      intro a ha hmem
      simp at hmem
      rw [hmem] at ha
      exact (lookupKey_eq_none_iff s.buffer key).mp hl ha
    · rw [keysOf_append]
      simp only [keysOf, List.map]
      rw [List.nodup_append]
      refine ⟨hndT, List.nodup_singleton key, ?_⟩
      intro a ha hmem
      simp at hmem
      rw [hmem] at ha
      exact (lookupKey_eq_none_iff s.buffer_ts key).mp hts ha
  · rw [upsert_y_true_of_some v now hl]
    refine ⟨?_, ?_, ?_, ?_⟩
    · intro k e2 h
      by_cases hk : k = key
      · subst hk
        rw [lookupKey_setEntry_self] at h
        injection h with h2
        rw [← h2]
        simp
      · rw [lookupKey_setEntry_ne _ _ hk] at h
        exact hsides k e2 h
    · intro k
      by_cases hk : k = key
      · subst hk
        rw [lookupKey_setEntry_self]
        have h2 := (hdom k).mp (by simp [hl])
        simp [h2]
      · rw [lookupKey_setEntry_ne _ _ hk]
        exact hdom k
    · rw [keysOf_setEntry_of_some _ hl]
      exact hndB
    · exact hndT

theorem Inv_upsert_y_pred {s : MetricState} (key : String) (v now : ℚ)
    (hinv : Inv s) : Inv (upsert_y_pred s key v now) := by
  obtain ⟨hsides, hdom, hndB, hndT⟩ := hinv
  rcases hl : lookupKey s.buffer key with _ | e
  · have hts : lookupKey s.buffer_ts key = none := by
      rcases h2 : lookupKey s.buffer_ts key with _ | t
      · rfl
      · exfalso
        have h3 := (hdom key).mpr (by simp [h2])
        rw [hl] at h3
        simp at h3
    rw [upsert_y_pred_of_none v now hl]
    refine ⟨?_, ?_, ?_, ?_⟩
    · intro k e2 h
      rw [lookupKey_append_single _ k hl] at h
      by_cases hk : k = key
      · rw [if_pos hk] at h
        injection h with h2
        rw [← h2]
        simp
      · rw [if_neg hk] at h
        exact hsides k e2 h
    · intro k
      rw [lookupKey_append_single _ k hl, lookupKey_append_single _ k hts]
      by_cases hk : k = key
      · simp [hk]
      · simp only [if_neg hk]
        exact hdom k
    · rw [keysOf_append]
      simp only [keysOf, List.map]
      rw [List.nodup_append]
      refine ⟨hndB, List.nodup_singleton key, ?_⟩
      intro a ha hmem
      simp at hmem
      rw [hmem] at ha
      exact (lookupKey_eq_none_iff s.buffer key).mp hl ha
    · rw [keysOf_append]
      simp only [keysOf, List.map]
      rw [List.nodup_append]
      refine ⟨hndT, List.nodup_singleton key, ?_⟩
      intro a ha hmem
      simp at hmem
      rw [hmem] at ha
      exact (lookupKey_eq_none_iff s.buffer_ts key).mp hts ha
  · rw [upsert_y_pred_of_some v now hl]
    refine ⟨?_, ?_, ?_, ?_⟩
    · intro k e2 h
      by_cases hk : k = key
      · subst hk
        rw [lookupKey_setEntry_self] at h
        injection h with h2
        rw [← h2]
        simp
      · rw [lookupKey_setEntry_ne _ _ hk] at h
        exact hsides k e2 h
    · intro k
      by_cases hk : k = key
      · subst hk
        rw [lookupKey_setEntry_self]
        have h2 := (hdom k).mp (by simp [hl])
        simp [h2]
      · rw [lookupKey_setEntry_ne _ _ hk]
        exact hdom k
    · rw [keysOf_setEntry_of_some _ hl]
      exact hndB
    · exact hndT

theorem Inv_on_y_true {s : MetricState} (ttl : ℚ) (sinkOk : Bool)
    (p : Payload) (now : ℚ) (hinv : Inv s) :
    Inv (on_y_true ttl sinkOk s p now).1 := by
  rcases hdec : decodeMsg p with _ | ⟨key, v⟩
  · rw [on_y_true_decode_fail ttl sinkOk s now hdec]
    exact hinv
  · by_cases hfail : (!sinkOk
        && sinkAppendReached (upsert_y_true s key v now) key) = true
    · obtain ⟨hs, hr⟩ := Bool.and_eq_true_iff.mp hfail
      have hso : sinkOk = false := by
        cases sinkOk
        · rfl
        · simp at hs
      subst hso
      rw [on_y_true_sink_fail ttl s now hdec hr]
      exact Inv_upsert_y_true key v now hinv
    · have hfail' := Bool.eq_false_iff.mpr hfail
      rw [on_y_true_chain ttl sinkOk s now hdec hfail']
      exact Inv_cleanup now ttl
        (Inv_try_finalize key (Inv_upsert_y_true key v now hinv))

theorem Inv_on_y_pred {s : MetricState} (ttl : ℚ) (sinkOk : Bool)
    (p : Payload) (now : ℚ) (hinv : Inv s) :
    Inv (on_y_pred ttl sinkOk s p now).1 := by
  rcases hdec : decodeMsg p with _ | ⟨key, v⟩
  · rw [on_y_pred_decode_fail ttl sinkOk s now hdec]
    exact hinv
  · by_cases hfail : (!sinkOk
        && sinkAppendReached (upsert_y_pred s key v now) key) = true
    · obtain ⟨hs, hr⟩ := Bool.and_eq_true_iff.mp hfail
      have hso : sinkOk = false := by
        cases sinkOk
        · rfl
        · simp at hs
      subst hso
      rw [on_y_pred_sink_fail ttl s now hdec hr]
      exact Inv_upsert_y_pred key v now hinv
    · have hfail' := Bool.eq_false_iff.mpr hfail
      rw [on_y_pred_chain ttl sinkOk s now hdec hfail']
      exact Inv_cleanup now ttl
        (Inv_try_finalize key (Inv_upsert_y_pred key v now hinv))

theorem Inv_reachable {ttl : ℚ} {s : MetricState} (h : Reachable ttl s) :
    Inv s := by
  induction h with
  | refl => exact Inv_init
  | tail _ hstep ih =>
    cases hstep with
    | trueMsg sinkOk p now => exact Inv_on_y_true ttl sinkOk p now ih
    | predMsg sinkOk p now => exact Inv_on_y_pred ttl sinkOk p now ih

/-- A step never removes an entry by finalize and eviction at once: the two
cases disagree about the row the step appended. -/
theorem not_fin_and_evict {s s' : MetricState} {k : String} {ttl now : ℚ} :
    ¬(FinalizedAt s s' k ∧ EvictedAt ttl s s' k now) := by
  rintro ⟨⟨vt, vp, hfin⟩, ⟨_, hsink⟩⟩
  rcases hsink with h | ⟨r, hr, hne⟩
  · rw [hfin] at h
    have h2 := congrArg List.length h
    simp at h2
  · rw [hfin] at hr
    have h2 : (⟨k, vt, vp, |vt - vp|⟩ : Row) = r := by
      have h3 := List.append_cancel_left hr
      simpa using h3
    exact hne (by rw [← h2])

/-- Effect of `try_finalize` at the message's own key, as field equations:
either a no-op, or removal of that key with one appended row bearing it. -/
theorem try_finalize_cases (u : MetricState) (mid : String) :
    try_finalize u mid = u
    ∨ ∃ a b, (try_finalize u mid).buffer = eraseKey u.buffer mid
        ∧ (try_finalize u mid).buffer_ts = eraseKey u.buffer_ts mid
        ∧ (try_finalize u mid).sink = u.sink ++ [⟨mid, a, b, |a - b|⟩] := by
  rcases hlm : lookupKey u.buffer mid with _ | em
  · exact Or.inl (try_finalize_of_none hlm)
  · rcases h1 : em.y_true with _ | a
    · exact Or.inl (try_finalize_of_incomplete hlm (Or.inl h1))
    · rcases h2 : em.y_pred with _ | b
      · exact Or.inl (try_finalize_of_incomplete hlm (Or.inr h2))
      · have hem : em = ⟨some a, some b⟩ := by
          obtain ⟨x, y⟩ := em
          simp at h1 h2
          rw [h1, h2]
        refine Or.inr ⟨a, b, ?_, ?_, ?_⟩ <;>
          rw [try_finalize_of_complete (hem ▸ hlm)]

/-- Removal dichotomy for `on_y_true`: an entry that disappears during one
handler invocation was either finalized (one row with its id appended) or
evicted (its age exceeded the TTL and no row with its id was appended). -/
theorem removal_dichotomy_true (ttl : ℚ) (sinkOk : Bool) (s : MetricState)
    (p : Payload) (now : ℚ) (k : String) (e : BufferEntry)
    (hinv : Inv s) (hb : lookupKey s.buffer k = some e)
    (hrem : lookupKey (on_y_true ttl sinkOk s p now).1.buffer k = none) :
    FinalizedAt s (on_y_true ttl sinkOk s p now).1 k
      ∨ EvictedAt ttl s (on_y_true ttl sinkOk s p now).1 k now := by
  rcases hdec : decodeMsg p with _ | ⟨mid, v⟩
  · rw [on_y_true_decode_fail ttl sinkOk s now hdec] at hrem
    have hrem2 : lookupKey s.buffer k = none := hrem
    rw [hb] at hrem2
    cases hrem2
  · by_cases hkm : mid = k
    · subst hkm
      rcases hep : e.y_pred with _ | vp
      · -- the entry stays one-sided: only the sweep can remove it
        have hl1 : lookupKey (upsert_y_true s mid v now).buffer mid
            = some ⟨some v, none⟩ := by
          rw [upsert_y_true_of_some v now hb, lookupKey_setEntry_self, hep]
        have hfail : (!sinkOk
            && sinkAppendReached (upsert_y_true s mid v now) mid) = false := by
          rw [sinkAppendReached_of_incomplete hl1 (Or.inr rfl)]
          simp
        have hX : (on_y_true ttl sinkOk s p now).1
            = cleanup_old_records
                (try_finalize (upsert_y_true s mid v now) mid) now ttl := by
          rw [on_y_true_chain ttl sinkOk s now hdec hfail]
        rw [hX] at hrem ⊢
        rw [try_finalize_of_incomplete hl1 (Or.inr rfl)] at hrem ⊢
        have hts_eq : (upsert_y_true s mid v now).buffer_ts = s.buffer_ts := by
          rw [upsert_y_true_of_some v now hb]
        rw [lookupKey_cleanup_buffer, hts_eq] at hrem
        by_cases hmem : mid ∈ expiredIds s.buffer_ts now ttl
        · obtain ⟨t, ht⟩ : ∃ t, lookupKey s.buffer_ts mid = some t := by
            have h2 := (hinv.2.1 mid).mp (by simp [hb])
            exact Option.isSome_iff_exists.mp h2
          have hexp : now - t > ttl :=
            (mem_expiredIds_of_lookup hinv.2.2.2 ht).mp hmem
          refine Or.inr ⟨⟨t, ht, hexp⟩, Or.inl ?_⟩
          rw [cleanup_sink, upsert_y_true_of_some v now hb]
        · rw [if_neg hmem, hl1] at hrem
          cases hrem
      · -- both sides set after the upsert
        have hl1 : lookupKey (upsert_y_true s mid v now).buffer mid
            = some ⟨some v, some vp⟩ := by
          rw [upsert_y_true_of_some v now hb, lookupKey_setEntry_self, hep]
        cases hsok : sinkOk with
        | false =>
          have hreach := sinkAppendReached_of_complete hl1
          rw [hsok] at hrem
          have hX : (on_y_true ttl false s p now).1
              = upsert_y_true s mid v now := by
            rw [on_y_true_sink_fail ttl s now hdec hreach]
          rw [hX, hl1] at hrem
          cases hrem
        | true =>
          have hfail : (!true
              && sinkAppendReached (upsert_y_true s mid v now) mid) = false := by
            simp
          have hX : (on_y_true ttl true s p now).1
              = cleanup_old_records
                  (try_finalize (upsert_y_true s mid v now) mid) now ttl := by
            rw [on_y_true_chain ttl true s now hdec hfail]
          rw [hX]
          have hTs : (try_finalize (upsert_y_true s mid v now) mid).sink
              = (upsert_y_true s mid v now).sink
                ++ [⟨mid, v, vp, |v - vp|⟩] := by
            rw [try_finalize_of_complete hl1]
          refine Or.inl ⟨v, vp, ?_⟩
          rw [cleanup_sink, hTs, upsert_y_true_of_some v now hb]
    · -- the message bears a different identifier
      have hknm : k ≠ mid := fun h2 => hkm h2.symm
      have hup : lookupKey (upsert_y_true s mid v now).buffer k = some e := by
        rcases hm : lookupKey s.buffer mid with _ | em
        · rw [upsert_y_true_of_none v now hm]
          exact lookupKey_append_of_some _ hb
        · rw [upsert_y_true_of_some v now hm]
          rw [lookupKey_setEntry_ne _ _ hknm]
          exact hb
      have hupts : lookupKey (upsert_y_true s mid v now).buffer_ts k
          = lookupKey s.buffer_ts k := by
        rcases hm : lookupKey s.buffer mid with _ | em
        · have hmts : lookupKey s.buffer_ts mid = none := by
            rcases h2 : lookupKey s.buffer_ts mid with _ | t0
            · rfl
            · exfalso
              have h3 := (hinv.2.1 mid).mpr (by simp [h2])
              rw [hm] at h3
              simp at h3
          rw [upsert_y_true_of_none v now hm]
          rw [lookupKey_append_single now k hmts, if_neg hknm]
        · rw [upsert_y_true_of_some v now hm]
      have hupsink : (upsert_y_true s mid v now).sink = s.sink := by
        rcases hm : lookupKey s.buffer mid with _ | em
        · rw [upsert_y_true_of_none v now hm]
        · rw [upsert_y_true_of_some v now hm]
      have hinv1 := Inv_upsert_y_true mid v now hinv
      obtain ⟨t, ht⟩ : ∃ t, lookupKey s.buffer_ts k = some t := by
        have h2 := (hinv.2.1 k).mp (by simp [hb])
        exact Option.isSome_iff_exists.mp h2
      by_cases hfailB : (!sinkOk
          && sinkAppendReached (upsert_y_true s mid v now) mid) = true
      · obtain ⟨hs, hr⟩ := Bool.and_eq_true_iff.mp hfailB
        have hso : sinkOk = false := by
          cases sinkOk
          · rfl
          · simp at hs
        subst hso
        have hX : (on_y_true ttl false s p now).1
            = upsert_y_true s mid v now := by
          rw [on_y_true_sink_fail ttl s now hdec hr]
        rw [hX, hup] at hrem
        cases hrem
      · have hfailB' := Bool.eq_false_iff.mpr hfailB
        have hX : (on_y_true ttl sinkOk s p now).1
            = cleanup_old_records
                (try_finalize (upsert_y_true s mid v now) mid) now ttl := by
          rw [on_y_true_chain ttl sinkOk s now hdec hfailB']
        rw [hX] at hrem ⊢
        rcases try_finalize_cases (upsert_y_true s mid v now) mid with
          hT | ⟨a, b, hTb, hTt, hTs⟩
        · rw [hT] at hrem ⊢
          rw [lookupKey_cleanup_buffer] at hrem
          by_cases hmem : k ∈ expiredIds
              (upsert_y_true s mid v now).buffer_ts now ttl
          · have htk : lookupKey (upsert_y_true s mid v now).buffer_ts k
                = some t := by
              rw [hupts]
              exact ht
            have hexp : now - t > ttl :=
              (mem_expiredIds_of_lookup hinv1.2.2.2 htk).mp hmem
            refine Or.inr ⟨⟨t, ht, hexp⟩, Or.inl ?_⟩
            rw [cleanup_sink, hupsink]
          · rw [if_neg hmem, hup] at hrem
            cases hrem
        · rw [lookupKey_cleanup_buffer, hTb, hTt] at hrem
          have hlek : lookupKey (eraseKey
              (upsert_y_true s mid v now).buffer mid) k = some e := by
            rw [lookupKey_eraseKey_ne _ hknm]
            exact hup
          by_cases hmem : k ∈ expiredIds
              (eraseKey (upsert_y_true s mid v now).buffer_ts mid) now ttl
          · have htk : lookupKey (eraseKey
                (upsert_y_true s mid v now).buffer_ts mid) k = some t := by
              rw [lookupKey_eraseKey_ne _ hknm, hupts]
              exact ht
            have hnd2 : (keysOf (eraseKey
                (upsert_y_true s mid v now).buffer_ts mid)).Nodup := by
              have h2 : keysOf (eraseKey
                  (upsert_y_true s mid v now).buffer_ts mid)
                  = (keysOf (upsert_y_true s mid v now).buffer_ts).filter
                    (fun k0 => decide (k0 ≠ mid)) :=
                keysOf_filterKey (fun k0 => decide (k0 ≠ mid)) _
              rw [h2]
              exact hinv1.2.2.2.filter _
            have hexp : now - t > ttl :=
              (mem_expiredIds_of_lookup hnd2 htk).mp hmem
            refine Or.inr ⟨⟨t, ht, hexp⟩,
              Or.inr ⟨⟨mid, a, b, |a - b|⟩, ?_, ?_⟩⟩
            · rw [cleanup_sink, hTs, hupsink]
            · exact hkm
          · rw [if_neg hmem, hlek] at hrem
            cases hrem

/-- Removal dichotomy for `on_y_pred`, symmetric to
`removal_dichotomy_true`. -/
theorem removal_dichotomy_pred (ttl : ℚ) (sinkOk : Bool) (s : MetricState)
    (p : Payload) (now : ℚ) (k : String) (e : BufferEntry)
    (hinv : Inv s) (hb : lookupKey s.buffer k = some e)
    (hrem : lookupKey (on_y_pred ttl sinkOk s p now).1.buffer k = none) :
    FinalizedAt s (on_y_pred ttl sinkOk s p now).1 k
      ∨ EvictedAt ttl s (on_y_pred ttl sinkOk s p now).1 k now := by
  rcases hdec : decodeMsg p with _ | ⟨mid, v⟩
  · rw [on_y_pred_decode_fail ttl sinkOk s now hdec] at hrem
    have hrem2 : lookupKey s.buffer k = none := hrem
    rw [hb] at hrem2
    cases hrem2
  · by_cases hkm : mid = k
    · subst hkm
      rcases het : e.y_true with _ | vt
      · have hl1 : lookupKey (upsert_y_pred s mid v now).buffer mid
            = some ⟨none, some v⟩ := by
          rw [upsert_y_pred_of_some v now hb, lookupKey_setEntry_self, het]
        have hfail : (!sinkOk
            && sinkAppendReached (upsert_y_pred s mid v now) mid) = false := by
          rw [sinkAppendReached_of_incomplete hl1 (Or.inl rfl)]
          simp
        have hX : (on_y_pred ttl sinkOk s p now).1
            = cleanup_old_records
                (try_finalize (upsert_y_pred s mid v now) mid) now ttl := by
          rw [on_y_pred_chain ttl sinkOk s now hdec hfail]
        rw [hX] at hrem ⊢
        rw [try_finalize_of_incomplete hl1 (Or.inl rfl)] at hrem ⊢
        have hts_eq : (upsert_y_pred s mid v now).buffer_ts = s.buffer_ts := by
          rw [upsert_y_pred_of_some v now hb]
        rw [lookupKey_cleanup_buffer, hts_eq] at hrem
        by_cases hmem : mid ∈ expiredIds s.buffer_ts now ttl
        · obtain ⟨t, ht⟩ : ∃ t, lookupKey s.buffer_ts mid = some t := by
            have h2 := (hinv.2.1 mid).mp (by simp [hb])
            exact Option.isSome_iff_exists.mp h2
          have hexp : now - t > ttl :=
            (mem_expiredIds_of_lookup hinv.2.2.2 ht).mp hmem
          refine Or.inr ⟨⟨t, ht, hexp⟩, Or.inl ?_⟩
          rw [cleanup_sink, upsert_y_pred_of_some v now hb]
        · rw [if_neg hmem, hl1] at hrem
          cases hrem
      · have hl1 : lookupKey (upsert_y_pred s mid v now).buffer mid
            = some ⟨some vt, some v⟩ := by
          rw [upsert_y_pred_of_some v now hb, lookupKey_setEntry_self, het]
        cases hsok : sinkOk with
        | false =>
          have hreach := sinkAppendReached_of_complete hl1
          rw [hsok] at hrem
          have hX : (on_y_pred ttl false s p now).1
              = upsert_y_pred s mid v now := by
            rw [on_y_pred_sink_fail ttl s now hdec hreach]
          rw [hX, hl1] at hrem
          cases hrem
        | true =>
          have hfail : (!true
              && sinkAppendReached (upsert_y_pred s mid v now) mid) = false := by
            simp
          have hX : (on_y_pred ttl true s p now).1
              = cleanup_old_records
                  (try_finalize (upsert_y_pred s mid v now) mid) now ttl := by
            rw [on_y_pred_chain ttl true s now hdec hfail]
          rw [hX]
          have hTs : (try_finalize (upsert_y_pred s mid v now) mid).sink
              = (upsert_y_pred s mid v now).sink
                ++ [⟨mid, vt, v, |vt - v|⟩] := by
            rw [try_finalize_of_complete hl1]
          refine Or.inl ⟨vt, v, ?_⟩
          rw [cleanup_sink, hTs, upsert_y_pred_of_some v now hb]
    · have hknm : k ≠ mid := fun h2 => hkm h2.symm
      have hup : lookupKey (upsert_y_pred s mid v now).buffer k = some e := by
        rcases hm : lookupKey s.buffer mid with _ | em
        · rw [upsert_y_pred_of_none v now hm]
          exact lookupKey_append_of_some _ hb
        · rw [upsert_y_pred_of_some v now hm]
          rw [lookupKey_setEntry_ne _ _ hknm]
          exact hb
      have hupts : lookupKey (upsert_y_pred s mid v now).buffer_ts k
          = lookupKey s.buffer_ts k := by
        rcases hm : lookupKey s.buffer mid with _ | em
        · have hmts : lookupKey s.buffer_ts mid = none := by
            rcases h2 : lookupKey s.buffer_ts mid with _ | t0
            · rfl
            · exfalso
              have h3 := (hinv.2.1 mid).mpr (by simp [h2])
              rw [hm] at h3
              simp at h3
          rw [upsert_y_pred_of_none v now hm]
          rw [lookupKey_append_single now k hmts, if_neg hknm]
        · rw [upsert_y_pred_of_some v now hm]
      have hupsink : (upsert_y_pred s mid v now).sink = s.sink := by
        rcases hm : lookupKey s.buffer mid with _ | em
        · rw [upsert_y_pred_of_none v now hm]
        · rw [upsert_y_pred_of_some v now hm]
      have hinv1 := Inv_upsert_y_pred mid v now hinv
      obtain ⟨t, ht⟩ : ∃ t, lookupKey s.buffer_ts k = some t := by
        have h2 := (hinv.2.1 k).mp (by simp [hb])
        exact Option.isSome_iff_exists.mp h2
      by_cases hfailB : (!sinkOk
          && sinkAppendReached (upsert_y_pred s mid v now) mid) = true
      · obtain ⟨hs, hr⟩ := Bool.and_eq_true_iff.mp hfailB
        have hso : sinkOk = false := by
          cases sinkOk
          · rfl
          · simp at hs
        subst hso
        have hX : (on_y_pred ttl false s p now).1
            = upsert_y_pred s mid v now := by
          rw [on_y_pred_sink_fail ttl s now hdec hr]
        rw [hX, hup] at hrem
        cases hrem
      · have hfailB' := Bool.eq_false_iff.mpr hfailB
        have hX : (on_y_pred ttl sinkOk s p now).1
            = cleanup_old_records
                (try_finalize (upsert_y_pred s mid v now) mid) now ttl := by
          rw [on_y_pred_chain ttl sinkOk s now hdec hfailB']
        rw [hX] at hrem ⊢
        rcases try_finalize_cases (upsert_y_pred s mid v now) mid with
          hT | ⟨a, b, hTb, hTt, hTs⟩
        · rw [hT] at hrem ⊢
          rw [lookupKey_cleanup_buffer] at hrem
          by_cases hmem : k ∈ expiredIds
              (upsert_y_pred s mid v now).buffer_ts now ttl
          · have htk : lookupKey (upsert_y_pred s mid v now).buffer_ts k
                = some t := by
              rw [hupts]
              exact ht
            have hexp : now - t > ttl :=
              (mem_expiredIds_of_lookup hinv1.2.2.2 htk).mp hmem
            refine Or.inr ⟨⟨t, ht, hexp⟩, Or.inl ?_⟩
            rw [cleanup_sink, hupsink]
          · rw [if_neg hmem, hup] at hrem
            cases hrem
        · rw [lookupKey_cleanup_buffer, hTb, hTt] at hrem
          have hlek : lookupKey (eraseKey
              (upsert_y_pred s mid v now).buffer mid) k = some e := by
            rw [lookupKey_eraseKey_ne _ hknm]
            exact hup
          by_cases hmem : k ∈ expiredIds
              (eraseKey (upsert_y_pred s mid v now).buffer_ts mid) now ttl
          · have htk : lookupKey (eraseKey
                (upsert_y_pred s mid v now).buffer_ts mid) k = some t := by
              rw [lookupKey_eraseKey_ne _ hknm, hupts]
              exact ht
            have hnd2 : (keysOf (eraseKey
                (upsert_y_pred s mid v now).buffer_ts mid)).Nodup := by
              have h2 : keysOf (eraseKey
                  (upsert_y_pred s mid v now).buffer_ts mid)
                  = (keysOf (upsert_y_pred s mid v now).buffer_ts).filter
                    (fun k0 => decide (k0 ≠ mid)) :=
                keysOf_filterKey (fun k0 => decide (k0 ≠ mid)) _
              rw [h2]
              exact hinv1.2.2.2.filter _
            have hexp : now - t > ttl :=
              (mem_expiredIds_of_lookup hnd2 htk).mp hmem
            refine Or.inr ⟨⟨t, ht, hexp⟩,
              Or.inr ⟨⟨mid, a, b, |a - b|⟩, ?_, ?_⟩⟩
            · rw [cleanup_sink, hTs, hupsink]
            · exact hkm
          · rw [if_neg hmem, hlek] at hrem
            cases hrem

/-- Acknowledgment discipline of `on_y_true`: the outcome is exactly one of
ack / nack; ack exactly when no step of decode → upsert → finalize → sweep
raised; on ack the returned state is the completed chain; decode failure
nacks. -/
theorem ack_discipline_true (ttl : ℚ) (sinkOk : Bool) (s : MetricState)
    (p : Payload) (now : ℚ) :
    ((on_y_true ttl sinkOk s p now).2 = Ack.ack
        ↔ ¬(on_y_true ttl sinkOk s p now).2 = Ack.nackRequeue)
    ∧ ((on_y_true ttl sinkOk s p now).2 = Ack.ack
        ↔ ∃ key v, decodeMsg p = some (key, v)
            ∧ (sinkOk = true
              ∨ sinkAppendReached (upsert_y_true s key v now) key = false))
    ∧ (∀ key v, decodeMsg p = some (key, v) →
        (on_y_true ttl sinkOk s p now).2 = Ack.ack →
        (on_y_true ttl sinkOk s p now).1
          = cleanup_old_records (try_finalize (upsert_y_true s key v now) key)
              now ttl)
    ∧ (decodeMsg p = none →
        (on_y_true ttl sinkOk s p now).2 = Ack.nackRequeue) := by
  rcases hdec : decodeMsg p with _ | ⟨key0, v0⟩
  · rw [on_y_true_decode_fail ttl sinkOk s now hdec]
    refine ⟨by simp, ?_, ?_, fun _ => rfl⟩
    · simp [hdec]
    · intro key v hdec2
      simp at hdec2
  · by_cases hfail : (!sinkOk
        && sinkAppendReached (upsert_y_true s key0 v0 now) key0) = true
    · obtain ⟨hs, hr⟩ := Bool.and_eq_true_iff.mp hfail
      have hso : sinkOk = false := by
        cases sinkOk
        · rfl
        · simp at hs
      subst hso
      rw [on_y_true_sink_fail ttl s now hdec hr]
      refine ⟨by simp, ?_, ?_, ?_⟩
      · constructor
        · intro h2
          simp at h2
        · rintro ⟨key, v, hd2, hor⟩
          injection hd2 with hd3
          injection hd3 with hk hv
          subst hk
          subst hv
          rcases hor with h | h
          · simp at h
          · rw [h] at hr
            simp at hr
      · intro key v hd2 hack
        simp at hack
      · intro hnone
        simp at hnone
    · have hfail' : (!sinkOk
          && sinkAppendReached (upsert_y_true s key0 v0 now) key0) = false :=
        Bool.eq_false_iff.mpr hfail
      rw [on_y_true_chain ttl sinkOk s now hdec hfail']
      refine ⟨by simp, ?_, ?_, ?_⟩
      · constructor
        · intro _
          refine ⟨key0, v0, rfl, ?_⟩
          cases sinkOk
          · right
            simpa using hfail'
          · left
            rfl
        · intro _
          rfl
      · intro key v hd2 _
        injection hd2 with hd3
        injection hd3 with hk hv
        subst hk
        subst hv
        rfl
      · intro hnone
        simp at hnone

/-- Acknowledgment discipline of `on_y_pred`, symmetric to
`ack_discipline_true`. -/
theorem ack_discipline_pred (ttl : ℚ) (sinkOk : Bool) (s : MetricState)
    (p : Payload) (now : ℚ) :
    ((on_y_pred ttl sinkOk s p now).2 = Ack.ack
        ↔ ¬(on_y_pred ttl sinkOk s p now).2 = Ack.nackRequeue)
    ∧ ((on_y_pred ttl sinkOk s p now).2 = Ack.ack
        ↔ ∃ key v, decodeMsg p = some (key, v)
            ∧ (sinkOk = true
              ∨ sinkAppendReached (upsert_y_pred s key v now) key = false))
    ∧ (∀ key v, decodeMsg p = some (key, v) →
        (on_y_pred ttl sinkOk s p now).2 = Ack.ack →
        (on_y_pred ttl sinkOk s p now).1
          = cleanup_old_records (try_finalize (upsert_y_pred s key v now) key)
              now ttl)
    ∧ (decodeMsg p = none →
        (on_y_pred ttl sinkOk s p now).2 = Ack.nackRequeue) := by
  rcases hdec : decodeMsg p with _ | ⟨key0, v0⟩
  · rw [on_y_pred_decode_fail ttl sinkOk s now hdec]
    refine ⟨by simp, ?_, ?_, fun _ => rfl⟩
    · simp [hdec]
    · intro key v hdec2
      simp at hdec2
  · by_cases hfail : (!sinkOk
        && sinkAppendReached (upsert_y_pred s key0 v0 now) key0) = true
    · obtain ⟨hs, hr⟩ := Bool.and_eq_true_iff.mp hfail
      have hso : sinkOk = false := by
        cases sinkOk
        · rfl
        · simp at hs
      subst hso
      rw [on_y_pred_sink_fail ttl s now hdec hr]
      refine ⟨by simp, ?_, ?_, ?_⟩
      · constructor
        · intro h2
          simp at h2
        · rintro ⟨key, v, hd2, hor⟩
          injection hd2 with hd3
          injection hd3 with hk hv
          subst hk
          subst hv
          rcases hor with h | h
          · simp at h
          · rw [h] at hr
            simp at hr
      · intro key v hd2 hack
        simp at hack
      · intro hnone
        simp at hnone
    · have hfail' : (!sinkOk
          && sinkAppendReached (upsert_y_pred s key0 v0 now) key0) = false :=
        Bool.eq_false_iff.mpr hfail
      rw [on_y_pred_chain ttl sinkOk s now hdec hfail']
      refine ⟨by simp, ?_, ?_, ?_⟩
      · constructor
        · intro _
          refine ⟨key0, v0, rfl, ?_⟩
          cases sinkOk
          · right
            simpa using hfail'
          · left
            rfl
        · intro _
          rfl
      · intro key v hd2 _
        injection hd2 with hd3
        injection hd3 with hk hv
        subst hk
        subst hv
        rfl
      · intro hnone
        simp at hnone

/-! ### The claims -/

/-- Claim C4: redelivering a side for a buffered, unfinalized identifier
overwrites that side's value in place — no second entry, `firstSeenAt` and
the other side untouched — and a pred, duplicate pred, truth sequence emits
exactly one row, carrying the last-written prediction. -/
theorem claim_C4_idempotent_overwrite
    (s : MetricState) (key : String) (e : BufferEntry) (v now : ℚ)
    (hb : lookupKey s.buffer key = some e)
    (ttl t1 t2 t3 : ℚ) (s0 : MetricState) (p1 p2 p3 : Payload) (v1 v2 vt : ℚ)
    (httl : 0 ≤ ttl) (hage : t2 - t1 ≤ ttl)
    (hd1 : decodeMsg p1 = some (key, v1))
    (hd2 : decodeMsg p2 = some (key, v2))
    (hd3 : decodeMsg p3 = some (key, vt))
    (hb0 : lookupKey s0.buffer key = none)
    (ht0 : lookupKey s0.buffer_ts key = none) :
    (upsert_y_pred s key v now
        = { s with buffer := setEntry s.buffer key ⟨e.y_true, some v⟩ }
      ∧ upsert_y_true s key v now
        = { s with buffer := setEntry s.buffer key ⟨some v, e.y_pred⟩ }
      ∧ keysOf (setEntry s.buffer key ⟨e.y_true, some v⟩) = keysOf s.buffer
      ∧ keysOf (setEntry s.buffer key ⟨some v, e.y_pred⟩) = keysOf s.buffer)
    ∧ ((on_y_true ttl true (on_y_pred ttl true
          (on_y_pred ttl true s0 p1 t1).1 p2 t2).1 p3 t3).1.sink
        = s0.sink ++ [⟨key, vt, v2, |vt - v2|⟩]
      ∧ lookupKey (on_y_true ttl true (on_y_pred ttl true
          (on_y_pred ttl true s0 p1 t1).1 p2 t2).1 p3 t3).1.buffer key
        = none) := by
  have hB1 : lookupKey (s0.buffer.filter
      (fun q => decide (q.1 ∉ expiredIds s0.buffer_ts t1 ttl))) key = none :=
    lookupKey_filter_of_none _ hb0
  have hT1 : lookupKey (s0.buffer_ts.filter
      (fun q => decide (q.1 ∉ expiredIds s0.buffer_ts t1 ttl))) key = none :=
    lookupKey_filter_of_none _ ht0
  have h1 : (on_y_pred ttl true s0 p1 t1).1
      = { buffer := s0.buffer.filter
            (fun q => decide (q.1 ∉ expiredIds s0.buffer_ts t1 ttl))
            ++ [(key, ⟨none, some v1⟩)]
          buffer_ts := s0.buffer_ts.filter
            (fun q => decide (q.1 ∉ expiredIds s0.buffer_ts t1 ttl))
            ++ [(key, t1)]
          sink := s0.sink } := by
    rw [on_y_pred_some ttl s0 t1 hd1]
    exact fresh_pred_state v1 t1 ttl httl hb0 ht0
  have hl1S : lookupKey ((s0.buffer.filter
        (fun q => decide (q.1 ∉ expiredIds s0.buffer_ts t1 ttl)))
        ++ [(key, (⟨none, some v1⟩ : BufferEntry))]) key
      = some ⟨none, some v1⟩ :=
    (lookupKey_append_of_none _ hB1).trans (by simp)
  have h2S : (on_y_pred ttl true
      { buffer := s0.buffer.filter
          (fun q => decide (q.1 ∉ expiredIds s0.buffer_ts t1 ttl))
          ++ [(key, ⟨none, some v1⟩)]
        buffer_ts := s0.buffer_ts.filter
          (fun q => decide (q.1 ∉ expiredIds s0.buffer_ts t1 ttl))
          ++ [(key, t1)]
        sink := s0.sink } p2 t2).1
      = { buffer := (setEntry ((s0.buffer.filter
              (fun q => decide (q.1 ∉ expiredIds s0.buffer_ts t1 ttl)))
              ++ [(key, ⟨none, some v1⟩)]) key ⟨none, some v2⟩).filter
            (fun q => decide (q.1 ∉ expiredIds ((s0.buffer_ts.filter
              (fun q => decide (q.1 ∉ expiredIds s0.buffer_ts t1 ttl)))
              ++ [(key, t1)]) t2 ttl))
          buffer_ts := ((s0.buffer_ts.filter
              (fun q => decide (q.1 ∉ expiredIds s0.buffer_ts t1 ttl)))
              ++ [(key, t1)]).filter
            (fun q => decide (q.1 ∉ expiredIds ((s0.buffer_ts.filter
              (fun q => decide (q.1 ∉ expiredIds s0.buffer_ts t1 ttl)))
              ++ [(key, t1)]) t2 ttl))
          sink := s0.sink } := by
    rw [on_y_pred_some ttl _ t2 hd2]
    exact dup_pred_state v2 t2 ttl hl1S
  have hcomp2 : (on_y_pred ttl true (on_y_pred ttl true s0 p1 t1).1 p2 t2).1
      = { buffer := (setEntry ((s0.buffer.filter
              (fun q => decide (q.1 ∉ expiredIds s0.buffer_ts t1 ttl)))
              ++ [(key, ⟨none, some v1⟩)]) key ⟨none, some v2⟩).filter
            (fun q => decide (q.1 ∉ expiredIds ((s0.buffer_ts.filter
              (fun q => decide (q.1 ∉ expiredIds s0.buffer_ts t1 ttl)))
              ++ [(key, t1)]) t2 ttl))
          buffer_ts := ((s0.buffer_ts.filter
              (fun q => decide (q.1 ∉ expiredIds s0.buffer_ts t1 ttl)))
              ++ [(key, t1)]).filter
            (fun q => decide (q.1 ∉ expiredIds ((s0.buffer_ts.filter
              (fun q => decide (q.1 ∉ expiredIds s0.buffer_ts t1 ttl)))
              ++ [(key, t1)]) t2 ttl))
          sink := s0.sink } := by
    rw [h1]
    exact h2S
  have hexp2 : expiredIds ((s0.buffer_ts.filter
        (fun q => decide (q.1 ∉ expiredIds s0.buffer_ts t1 ttl)))
        ++ [(key, t1)]) t2 ttl
      = expiredIds (s0.buffer_ts.filter
        (fun q => decide (q.1 ∉ expiredIds s0.buffer_ts t1 ttl))) t2 ttl := by
    rw [expiredIds_append, expiredIds_single_of_le key hage, List.append_nil]
  have hkey2 : key ∉ expiredIds ((s0.buffer_ts.filter
      (fun q => decide (q.1 ∉ expiredIds s0.buffer_ts t1 ttl)))
      ++ [(key, t1)]) t2 ttl := by
    rw [hexp2]
    exact notMem_expiredIds_of_none hT1
  have hset : setEntry ((s0.buffer.filter
        (fun q => decide (q.1 ∉ expiredIds s0.buffer_ts t1 ttl)))
        ++ [(key, ⟨none, some v1⟩)]) key ⟨none, some v2⟩
      = (s0.buffer.filter
        (fun q => decide (q.1 ∉ expiredIds s0.buffer_ts t1 ttl)))
        ++ [(key, ⟨none, some v2⟩)] :=
    setEntry_append_last _ _ hB1
  have hl2 : lookupKey (on_y_pred ttl true
      (on_y_pred ttl true s0 p1 t1).1 p2 t2).1.buffer key
      = some ⟨none, some v2⟩ := by
    rw [hcomp2]
    show lookupKey ((setEntry ((s0.buffer.filter
        (fun q => decide (q.1 ∉ expiredIds s0.buffer_ts t1 ttl)))
        ++ [(key, ⟨none, some v1⟩)]) key ⟨none, some v2⟩).filter
      (fun q => decide (q.1 ∉ expiredIds ((s0.buffer_ts.filter
        (fun q => decide (q.1 ∉ expiredIds s0.buffer_ts t1 ttl)))
        ++ [(key, t1)]) t2 ttl))) key = some ⟨none, some v2⟩
    rw [hset, lookupKey_filter_notMem _ hkey2]
    exact (lookupKey_append_of_none _ hB1).trans (by simp)
  have h3 : (on_y_true ttl true (on_y_pred ttl true
      (on_y_pred ttl true s0 p1 t1).1 p2 t2).1 p3 t3).1
      = { buffer := (eraseKey (on_y_pred ttl true
              (on_y_pred ttl true s0 p1 t1).1 p2 t2).1.buffer key).filter
            (fun q => decide (q.1 ∉ expiredIds (eraseKey (on_y_pred ttl true
              (on_y_pred ttl true s0 p1 t1).1 p2 t2).1.buffer_ts key) t3 ttl))
          buffer_ts := (eraseKey (on_y_pred ttl true
              (on_y_pred ttl true s0 p1 t1).1 p2 t2).1.buffer_ts key).filter
            (fun q => decide (q.1 ∉ expiredIds (eraseKey (on_y_pred ttl true
              (on_y_pred ttl true s0 p1 t1).1 p2 t2).1.buffer_ts key) t3 ttl))
          sink := (on_y_pred ttl true
            (on_y_pred ttl true s0 p1 t1).1 p2 t2).1.sink
            ++ [⟨key, vt, v2, |vt - v2|⟩] } := by
    rw [on_y_true_some ttl _ t3 hd3]
    exact join_true_state vt t3 ttl hl2
  refine ⟨⟨?_, ?_, ?_, ?_⟩, ?_, ?_⟩
  · rw [upsert_y_pred_of_some v now hb]
  · rw [upsert_y_true_of_some v now hb]
  · exact keysOf_setEntry_of_some _ hb
  · exact keysOf_setEntry_of_some _ hb
  · rw [h3, hcomp2]
  · rw [h3]
    exact lookupKey_filter_of_none _ (lookupKey_eraseKey_self ..)

/-- Witness for C4: Scenario C of the spec — predicted 5.0 at t=0, duplicate
predicted 5.0 at t=1, truth 4.0 at t=2 for identifier `"Y"` yield exactly the
row `("Y", 4.0, 5.0, 1.0)`. -/
theorem claim_C4_idempotent_overwrite_witness :
    (upsert_y_pred ⟨[("Y", ⟨none, some 5⟩)], [("Y", 0)], []⟩ "Y" 5 1
        = ⟨[("Y", ⟨none, some 5⟩)], [("Y", 0)], []⟩
      ∧ (on_y_true 600 true (on_y_pred 600 true (on_y_pred 600 true initState
          (Payload.obj [("id", JVal.jstr "Y"), ("body", JVal.jfloat 5)]) 0).1
          (Payload.obj [("id", JVal.jstr "Y"), ("body", JVal.jfloat 5)]) 1).1
          (Payload.obj [("id", JVal.jstr "Y"), ("body", JVal.jfloat 4)]) 2).1.sink
        = [⟨"Y", 4, 5, 1⟩]) := by
  have h := claim_C4_idempotent_overwrite
    ⟨[("Y", ⟨none, some 5⟩)], [("Y", 0)], []⟩ "Y" ⟨none, some 5⟩ 5 1
    (by decide) 600 0 1 2 initState
    (Payload.obj [("id", JVal.jstr "Y"), ("body", JVal.jfloat 5)])
    (Payload.obj [("id", JVal.jstr "Y"), ("body", JVal.jfloat 5)])
    (Payload.obj [("id", JVal.jstr "Y"), ("body", JVal.jfloat 4)])
    5 5 4 (by norm_num) (by norm_num) rfl rfl rfl rfl rfl
  refine ⟨?_, ?_⟩
  · rw [h.1.1]
    decide
  · rw [h.2.1]
    have habs : |(4 : ℚ) - 5| = 1 := by
      rw [abs_of_nonpos (by norm_num : (4 : ℚ) - 5 ≤ 0)]
      norm_num
    rw [habs]
    rfl

/-- Claim C2: a sweep at time `now` removes exactly the entries with
`now - firstSeenAt > TTL`, whatever sides they hold, and emits nothing; after
such an eviction a late arrival of the missing side starts a fresh entry —
new `firstSeenAt`, evicted value gone — and emits nothing either. -/
theorem claim_C2_ttl_eviction (s : MetricState) (now ttl : ℚ) (key : String)
    (t : ℚ) (hnd : (keysOf s.buffer_ts).Nodup)
    (hts : lookupKey s.buffer_ts key = some t) :
    (lookupKey (cleanup_old_records s now ttl).buffer key
        = if now - t > ttl then none else lookupKey s.buffer key)
    ∧ (lookupKey (cleanup_old_records s now ttl).buffer_ts key
        = if now - t > ttl then none else some t)
    ∧ (cleanup_old_records s now ttl).sink = s.sink
    ∧ (∀ (pp : Payload) (vp t2 : ℚ),
        now - t > ttl → 0 ≤ ttl → decodeMsg pp = some (key, vp) →
        lookupKey (on_y_pred ttl true
            (cleanup_old_records s now ttl) pp t2).1.buffer key
            = some ⟨none, some vp⟩
          ∧ lookupKey (on_y_pred ttl true
            (cleanup_old_records s now ttl) pp t2).1.buffer_ts key
            = some t2
          ∧ (on_y_pred ttl true
            (cleanup_old_records s now ttl) pp t2).1.sink = s.sink) := by
  have hmem : key ∈ expiredIds s.buffer_ts now ttl ↔ now - t > ttl :=
    mem_expiredIds_of_lookup hnd hts
  refine ⟨?_, ?_, rfl, ?_⟩
  · rw [lookupKey_cleanup_buffer]
    by_cases hexp : now - t > ttl
    · simp [hmem.mpr hexp, hexp]
    · have : key ∉ expiredIds s.buffer_ts now ttl := fun h2 => hexp (hmem.mp h2)
      simp [this, hexp]
  · rw [lookupKey_cleanup_buffer_ts]
    by_cases hexp : now - t > ttl
    · simp [hmem.mpr hexp, hexp]
    · have : key ∉ expiredIds s.buffer_ts now ttl := fun h2 => hexp (hmem.mp h2)
      simp [this, hexp, hts]
  · intro pp vp t2 hexp httl hdec
    have hcb : lookupKey (cleanup_old_records s now ttl).buffer key = none := by
      rw [lookupKey_cleanup_buffer]
      simp [hmem.mpr hexp]
    have hct : lookupKey (cleanup_old_records s now ttl).buffer_ts key
        = none := by
      rw [lookupKey_cleanup_buffer_ts]
      simp [hmem.mpr hexp]
    have hBnone : lookupKey ((cleanup_old_records s now ttl).buffer.filter
        (fun q => decide (q.1 ∉ expiredIds
          (cleanup_old_records s now ttl).buffer_ts t2 ttl))) key = none :=
      lookupKey_filter_of_none _ hcb
    have hTnone : lookupKey ((cleanup_old_records s now ttl).buffer_ts.filter
        (fun q => decide (q.1 ∉ expiredIds
          (cleanup_old_records s now ttl).buffer_ts t2 ttl))) key = none :=
      lookupKey_filter_of_none _ hct
    have h1 : (on_y_pred ttl true (cleanup_old_records s now ttl) pp t2).1
        = { buffer := (cleanup_old_records s now ttl).buffer.filter
              (fun q => decide (q.1 ∉ expiredIds
                (cleanup_old_records s now ttl).buffer_ts t2 ttl))
              ++ [(key, ⟨none, some vp⟩)]
            buffer_ts := (cleanup_old_records s now ttl).buffer_ts.filter
              (fun q => decide (q.1 ∉ expiredIds
                (cleanup_old_records s now ttl).buffer_ts t2 ttl))
              ++ [(key, t2)]
            sink := (cleanup_old_records s now ttl).sink } := by
      rw [on_y_pred_some ttl _ t2 hdec]
      exact fresh_pred_state vp t2 ttl httl hcb hct
    refine ⟨?_, ?_, ?_⟩
    · rw [h1]
      exact (lookupKey_append_of_none _ hBnone).trans (by simp)
    · rw [h1]
      exact (lookupKey_append_of_none _ hTnone).trans (by simp)
    · rw [h1]
      rfl

/-- Witness for C2: Scenario B of the spec — TTL 600, identifier `"X"` holds
only truth 10.0 since t=0; a sweep at t=601 leaves the store without `"X"`
and appends no row. -/
theorem claim_C2_ttl_eviction_witness :
    ((601 : ℚ) - 0 > 600)
    ∧ lookupKey (cleanup_old_records
        ⟨[("X", ⟨some 10, none⟩)], [("X", 0)], []⟩ 601 600).buffer "X" = none
    ∧ lookupKey (cleanup_old_records
        ⟨[("X", ⟨some 10, none⟩)], [("X", 0)], []⟩ 601 600).buffer_ts "X" = none
    ∧ (cleanup_old_records
        ⟨[("X", ⟨some 10, none⟩)], [("X", 0)], []⟩ 601 600).sink = [] := by
  have h := claim_C2_ttl_eviction
    ⟨[("X", ⟨some 10, none⟩)], [("X", 0)], []⟩ 601 600 "X" 0
    (by decide) (by decide)
  have hgt : (601 : ℚ) - 0 > 600 := by norm_num
  refine ⟨hgt, ?_, ?_, h.2.2.1⟩
  · rw [h.1, if_pos hgt]
  · rw [h.2.1, if_pos hgt]

/-- Claim C8: when the sink append raises while finalizing an identifier
whose both sides are set, the entry stays in the buffer with both values set
(the removal after the append is never reached), the timestamp map and sink
are untouched, and the inbound message is nacked with requeue. -/
theorem claim_C8_sink_write_failure (ttl : ℚ) (s : MetricState) (p : Payload)
    (key : String) (v now : ℚ) (e : BufferEntry)
    (hdec : decodeMsg p = some (key, v))
    (hb : lookupKey s.buffer key = some e) :
    (∀ vt, e.y_true = some vt →
      on_y_pred ttl false s p now
        = ({ s with buffer := setEntry s.buffer key ⟨some vt, some v⟩ },
           Ack.nackRequeue)
      ∧ lookupKey (on_y_pred ttl false s p now).1.buffer key
          = some ⟨some vt, some v⟩
      ∧ (on_y_pred ttl false s p now).1.buffer_ts = s.buffer_ts
      ∧ (on_y_pred ttl false s p now).1.sink = s.sink)
    ∧ (∀ vp, e.y_pred = some vp →
      on_y_true ttl false s p now
        = ({ s with buffer := setEntry s.buffer key ⟨some v, some vp⟩ },
           Ack.nackRequeue)
      ∧ lookupKey (on_y_true ttl false s p now).1.buffer key
          = some ⟨some v, some vp⟩
      ∧ (on_y_true ttl false s p now).1.buffer_ts = s.buffer_ts
      ∧ (on_y_true ttl false s p now).1.sink = s.sink) := by
  constructor
  · intro vt hvt
    have hupd : upsert_y_pred s key v now
        = { s with buffer := setEntry s.buffer key ⟨some vt, some v⟩ } := by
      rw [upsert_y_pred_of_some v now hb, hvt]
    have hreach : sinkAppendReached (upsert_y_pred s key v now) key = true := by
      rw [hupd]
      exact sinkAppendReached_of_complete (lookupKey_setEntry_self ..)
    have hmain : on_y_pred ttl false s p now
        = ({ s with buffer := setEntry s.buffer key ⟨some vt, some v⟩ },
           Ack.nackRequeue) := by
      rw [on_y_pred_sink_fail ttl s now hdec hreach, hupd]
    refine ⟨hmain, ?_, ?_, ?_⟩
    · rw [hmain]
      exact lookupKey_setEntry_self ..
    · rw [hmain]
    · rw [hmain]
  · intro vp hvp
    have hupd : upsert_y_true s key v now
        = { s with buffer := setEntry s.buffer key ⟨some v, some vp⟩ } := by
      rw [upsert_y_true_of_some v now hb, hvp]
    have hreach : sinkAppendReached (upsert_y_true s key v now) key = true := by
      rw [hupd]
      exact sinkAppendReached_of_complete (lookupKey_setEntry_self ..)
    have hmain : on_y_true ttl false s p now
        = ({ s with buffer := setEntry s.buffer key ⟨some v, some vp⟩ },
           Ack.nackRequeue) := by
      rw [on_y_true_sink_fail ttl s now hdec hreach, hupd]
    refine ⟨hmain, ?_, ?_, ?_⟩
    · rw [hmain]
      exact lookupKey_setEntry_self ..
    · rw [hmain]
    · rw [hmain]

/-- Witness for C8 at an entry holding truth 2 and an inbound prediction 3
whose append raises. -/
theorem claim_C8_sink_write_failure_witness :
    on_y_pred 600 false ⟨[("B", ⟨some 2, none⟩)], [("B", 0)], []⟩
        (Payload.obj [("id", JVal.jstr "B"), ("body", JVal.jfloat 3)]) 1
      = (⟨[("B", ⟨some 2, some 3⟩)], [("B", 0)], []⟩, Ack.nackRequeue) := by
  have h := (claim_C8_sink_write_failure 600
      ⟨[("B", ⟨some 2, none⟩)], [("B", 0)], []⟩
      (Payload.obj [("id", JVal.jstr "B"), ("body", JVal.jfloat 3)]) "B" 3 1
      ⟨some 2, none⟩ rfl (by decide)).1 2 rfl
  rw [h.1]
  decide

/-- Claim C7: each handler acknowledges exactly when decode, upsert, finalize
and sweep all completed without raising — the acked state is the fully
completed chain — and any raise in the chain yields nack-with-requeue
instead; the outcome is always exactly one of the two. -/
theorem claim_C7_ack_after_effects (ttl : ℚ) (sinkOk : Bool) (s : MetricState)
    (p : Payload) (now : ℚ) :
    (((on_y_true ttl sinkOk s p now).2 = Ack.ack
        ↔ ¬(on_y_true ttl sinkOk s p now).2 = Ack.nackRequeue)
      ∧ ((on_y_true ttl sinkOk s p now).2 = Ack.ack
        ↔ ∃ key v, decodeMsg p = some (key, v)
            ∧ (sinkOk = true
              ∨ sinkAppendReached (upsert_y_true s key v now) key = false))
      ∧ (∀ key v, decodeMsg p = some (key, v) →
          (on_y_true ttl sinkOk s p now).2 = Ack.ack →
          (on_y_true ttl sinkOk s p now).1
            = cleanup_old_records (try_finalize (upsert_y_true s key v now) key)
                now ttl)
      ∧ (decodeMsg p = none →
          (on_y_true ttl sinkOk s p now).2 = Ack.nackRequeue))
    ∧ (((on_y_pred ttl sinkOk s p now).2 = Ack.ack
        ↔ ¬(on_y_pred ttl sinkOk s p now).2 = Ack.nackRequeue)
      ∧ ((on_y_pred ttl sinkOk s p now).2 = Ack.ack
        ↔ ∃ key v, decodeMsg p = some (key, v)
            ∧ (sinkOk = true
              ∨ sinkAppendReached (upsert_y_pred s key v now) key = false))
      ∧ (∀ key v, decodeMsg p = some (key, v) →
          (on_y_pred ttl sinkOk s p now).2 = Ack.ack →
          (on_y_pred ttl sinkOk s p now).1
            = cleanup_old_records (try_finalize (upsert_y_pred s key v now) key)
                now ttl)
      ∧ (decodeMsg p = none →
          (on_y_pred ttl sinkOk s p now).2 = Ack.nackRequeue)) :=
  ⟨ack_discipline_true ttl sinkOk s p now, ack_discipline_pred ttl sinkOk s p now⟩

/-- Witness for C7: a healthy chain acks, a decode failure nacks. -/
theorem claim_C7_ack_after_effects_witness :
    (on_y_true 600 true initState
        (Payload.obj [("id", JVal.jstr "W"), ("body", JVal.jfloat 1)]) 0).2
      = Ack.ack
    ∧ (on_y_true 600 true initState Payload.malformed 0).2
      = Ack.nackRequeue :=
  ⟨(claim_C7_ack_after_effects 600 true initState
      (Payload.obj [("id", JVal.jstr "W"), ("body", JVal.jfloat 1)]) 0).1.2.1.mpr
      ⟨"W", 1, rfl, Or.inl rfl⟩,
   (claim_C7_ack_after_effects 600 true initState
      Payload.malformed 0).1.2.2.2 rfl⟩

/-- Claim C9: in every state reachable from startup, each buffered entry has
at least one side set, the buffer and the timestamp map hold the same
identifiers (so an entry exists exactly while a side has arrived and neither
terminal transition has fired), and an entry a handler invocation removes is
removed by exactly one of finalize (one row bearing its id appended) or evict
(age over TTL, no row bearing its id), never both. -/
theorem claim_C9_store_lifecycle (ttl : ℚ) (s : MetricState)
    (hreach : Reachable ttl s) :
    Inv s
    ∧ (∀ (sinkOk : Bool) (p : Payload) (now : ℚ) (k : String)
        (e : BufferEntry),
        lookupKey s.buffer k = some e →
        lookupKey (on_y_true ttl sinkOk s p now).1.buffer k = none →
        (FinalizedAt s (on_y_true ttl sinkOk s p now).1 k
          ∨ EvictedAt ttl s (on_y_true ttl sinkOk s p now).1 k now)
        ∧ ¬(FinalizedAt s (on_y_true ttl sinkOk s p now).1 k
          ∧ EvictedAt ttl s (on_y_true ttl sinkOk s p now).1 k now))
    ∧ (∀ (sinkOk : Bool) (p : Payload) (now : ℚ) (k : String)
        (e : BufferEntry),
        lookupKey s.buffer k = some e →
        lookupKey (on_y_pred ttl sinkOk s p now).1.buffer k = none →
        (FinalizedAt s (on_y_pred ttl sinkOk s p now).1 k
          ∨ EvictedAt ttl s (on_y_pred ttl sinkOk s p now).1 k now)
        ∧ ¬(FinalizedAt s (on_y_pred ttl sinkOk s p now).1 k
          ∧ EvictedAt ttl s (on_y_pred ttl sinkOk s p now).1 k now)) := by
  have hinv := Inv_reachable hreach
  refine ⟨hinv, ?_, ?_⟩
  · intro sinkOk p now k e hb hrem
    exact ⟨removal_dichotomy_true ttl sinkOk s p now k e hinv hb hrem,
      not_fin_and_evict⟩
  · intro sinkOk p now k e hb hrem
    exact ⟨removal_dichotomy_pred ttl sinkOk s p now k e hinv hb hrem,
      not_fin_and_evict⟩

/-- Witness for C9 at the reachable state left by one consumed truth
message. -/
theorem claim_C9_store_lifecycle_witness :
    Inv (on_y_true 600 true initState
      (Payload.obj [("id", JVal.jstr "W"), ("body", JVal.jfloat 1)]) 0).1 :=
  (claim_C9_store_lifecycle 600 _
    (Relation.ReflTransGen.single (Step.trueMsg initState true
      (Payload.obj [("id", JVal.jstr "W"), ("body", JVal.jfloat 1)]) 0))).1

/-- Claim C10 (implicit): both handlers key the store by the Python string
coercion of the decoded `id` field, so ids with equal string forms (the JSON
number 5 and the string `"5"`) address one entry and finalize together, while
ids with distinct string forms (5 versus 5.0) stay separate and never join. -/
theorem claim_C10_key_coercion :
    (∀ (fields : List (String × JVal)) (idv bodyv : JVal) (q : ℚ),
      lookupKey fields "id" = some idv →
      lookupKey fields "body" = some bodyv →
      pyFloat bodyv = some q →
      decodeMsg (Payload.obj fields) = some (pyStr idv, q))
    ∧ pyStr (JVal.jint 5) = pyStr (JVal.jstr "5")
    ∧ pyStr (JVal.jint 5) ≠ pyStr (JVal.jfloat 5)
    ∧ (on_y_pred 600 true (on_y_true 600 true initState
        (Payload.obj [("id", JVal.jint 5), ("body", JVal.jfloat 3)]) 0).1
        (Payload.obj [("id", JVal.jstr "5"), ("body", JVal.jfloat 7)]) 1).1.sink
      = [⟨"5", 3, 7, 4⟩]
    ∧ ((on_y_pred 600 true (on_y_true 600 true initState
          (Payload.obj [("id", JVal.jint 5), ("body", JVal.jfloat 3)]) 0).1
          (Payload.obj [("id", JVal.jfloat 5), ("body", JVal.jfloat 7)]) 1).1.sink
        = []
      ∧ lookupKey (on_y_pred 600 true (on_y_true 600 true initState
          (Payload.obj [("id", JVal.jint 5), ("body", JVal.jfloat 3)]) 0).1
          (Payload.obj [("id", JVal.jfloat 5), ("body", JVal.jfloat 7)]) 1).1.buffer
          "5" = some ⟨some 3, none⟩
      ∧ lookupKey (on_y_pred 600 true (on_y_true 600 true initState
          (Payload.obj [("id", JVal.jint 5), ("body", JVal.jfloat 3)]) 0).1
          (Payload.obj [("id", JVal.jfloat 5), ("body", JVal.jfloat 7)]) 1).1.buffer
          "5.0" = some ⟨none, some 7⟩) := by
  refine ⟨?_, rfl, by decide, ?_, ?_⟩
  · intro fields idv bodyv q hid hbody hpf
    simp [decodeMsg, hid, hbody, hpf]
  · have hd1 : decodeMsg
        (Payload.obj [("id", JVal.jint 5), ("body", JVal.jfloat 3)])
        = some ("5", 3) := rfl
    have hd2 : decodeMsg
        (Payload.obj [("id", JVal.jstr "5"), ("body", JVal.jfloat 7)])
        = some ("5", 7) := rfl
    have h1 : (on_y_true 600 true initState
        (Payload.obj [("id", JVal.jint 5), ("body", JVal.jfloat 3)]) 0).1
        = { buffer := [("5", ⟨some 3, none⟩)]
            buffer_ts := [("5", 0)]
            sink := [] } := by
      rw [on_y_true_some 600 initState 0 hd1]
      exact fresh_true_state 3 0 600 (by norm_num) rfl rfl
    have hl1 : lookupKey (on_y_true 600 true initState
        (Payload.obj [("id", JVal.jint 5), ("body", JVal.jfloat 3)]) 0).1.buffer
        "5" = some ⟨some 3, none⟩ := by
      rw [h1]
      decide
    have h2 : (on_y_pred 600 true (on_y_true 600 true initState
        (Payload.obj [("id", JVal.jint 5), ("body", JVal.jfloat 3)]) 0).1
        (Payload.obj [("id", JVal.jstr "5"), ("body", JVal.jfloat 7)]) 1).1
        = { buffer :=
              (eraseKey (on_y_true 600 true initState
                  (Payload.obj [("id", JVal.jint 5), ("body", JVal.jfloat 3)])
                  0).1.buffer "5").filter
                (fun q => decide (q.1 ∉ expiredIds
                  (eraseKey (on_y_true 600 true initState
                    (Payload.obj [("id", JVal.jint 5), ("body", JVal.jfloat 3)])
                    0).1.buffer_ts "5") 1 600))
            buffer_ts :=
              (eraseKey (on_y_true 600 true initState
                  (Payload.obj [("id", JVal.jint 5), ("body", JVal.jfloat 3)])
                  0).1.buffer_ts "5").filter
                (fun q => decide (q.1 ∉ expiredIds
                  (eraseKey (on_y_true 600 true initState
                    (Payload.obj [("id", JVal.jint 5), ("body", JVal.jfloat 3)])
                    0).1.buffer_ts "5") 1 600))
            sink :=
              (on_y_true 600 true initState
                (Payload.obj [("id", JVal.jint 5), ("body", JVal.jfloat 3)])
                0).1.sink ++ [⟨"5", 3, 7, |3 - 7|⟩] } := by
      rw [on_y_pred_some 600 _ 1 hd2]
      exact join_pred_state 7 1 600 hl1
    rw [h2, h1]
    have habs : |(3 : ℚ) - 7| = 4 := by
      rw [abs_of_nonpos (by norm_num : (3 : ℚ) - 7 ≤ 0)]
      norm_num
    rw [habs]
    rfl
  · have hd1 : decodeMsg
        (Payload.obj [("id", JVal.jint 5), ("body", JVal.jfloat 3)])
        = some ("5", 3) := rfl
    have hd2 : decodeMsg
        (Payload.obj [("id", JVal.jfloat 5), ("body", JVal.jfloat 7)])
        = some ("5.0", 7) := rfl
    have h1 : (on_y_true 600 true initState
        (Payload.obj [("id", JVal.jint 5), ("body", JVal.jfloat 3)]) 0).1
        = { buffer := [("5", ⟨some 3, none⟩)]
            buffer_ts := [("5", 0)]
            sink := [] } := by
      rw [on_y_true_some 600 initState 0 hd1]
      exact fresh_true_state 3 0 600 (by norm_num) rfl rfl
    rw [h1]
    have hexp : expiredIds [("5", (0 : ℚ))] 1 600 = [] :=
      expiredIds_single_of_le "5" (by norm_num)
    have hfinal : (on_y_pred 600 true
        ({ buffer := [("5", ⟨some 3, none⟩)]
           buffer_ts := [("5", 0)]
           sink := [] } : MetricState)
        (Payload.obj [("id", JVal.jfloat 5), ("body", JVal.jfloat 7)]) 1).1
        = { buffer := [("5", ⟨some 3, none⟩), ("5.0", ⟨none, some 7⟩)]
            buffer_ts := [("5", 0), ("5.0", 1)]
            sink := [] } := by
      rw [on_y_pred_some 600 _ 1 hd2]
      show cleanup_old_records (try_finalize (upsert_y_pred
        { buffer := [("5", ⟨some 3, none⟩)]
          buffer_ts := [("5", 0)]
          sink := [] } "5.0" 7 1) "5.0") 1 600 = _
      rw [fresh_pred_state 7 1 600 (by norm_num) (by decide) (by decide)]
      simp [hexp]
    rw [hfinal]
    refine ⟨rfl, by decide, by decide⟩

/-- Witness for C10 at a message whose id is the JSON number 5 and whose body
is the numeric string `"7"`. -/
theorem claim_C10_key_coercion_witness :
    decodeMsg (Payload.obj [("id", JVal.jint 5), ("body", JVal.jstr "7")])
      = some ("5", 7) :=
  claim_C10_key_coercion.1 [("id", JVal.jint 5), ("body", JVal.jstr "7")]
    (JVal.jint 5) (JVal.jstr "7") 7 rfl rfl (by decide)

/-- Claim C5: `try_finalize` is a no-op — store, timestamp map and sink all
unchanged — whenever the identifier has no entry or its entry has either side
unset; so a one-sided identifier never produces a reconciled row from a
finalize attempt, regardless of elapsed time. -/
theorem claim_C5_no_premature_finalize (s : MetricState) (key : String)
    (h : lookupKey s.buffer key = none
      ∨ ∃ e, lookupKey s.buffer key = some e
          ∧ (e.y_true = none ∨ e.y_pred = none)) :
    try_finalize s key = s := by
  rcases h with h | ⟨e, h, he⟩
  · exact try_finalize_of_none h
  · exact try_finalize_of_incomplete h he

/-- Witness for C5 at a store holding only the truth side of `"A"`. -/
theorem claim_C5_no_premature_finalize_witness :
    try_finalize ⟨[("A", ⟨some 1, none⟩)], [("A", 0)], []⟩ "A"
      = ⟨[("A", ⟨some 1, none⟩)], [("A", 0)], []⟩ :=
  claim_C5_no_premature_finalize _ "A"
    (Or.inr ⟨⟨some 1, none⟩, by decide, Or.inr rfl⟩)

/-- Claim C1: when both sides of a fresh identifier arrive within the TTL
window, in either order, exactly one reconciled row — identifier, stored
truth, stored prediction, `|y_true - y_pred|` — is appended, and the entry is
gone from both maps afterwards. -/
theorem claim_C1_join_completeness (ttl t1 t2 : ℚ) (s : MetricState)
    (pt pp : Payload) (key : String) (vt vp : ℚ)
    (httl : 0 ≤ ttl) (hage : t2 - t1 ≤ ttl)
    (hdt : decodeMsg pt = some (key, vt))
    (hdp : decodeMsg pp = some (key, vp))
    (hb : lookupKey s.buffer key = none)
    (ht : lookupKey s.buffer_ts key = none) :
    ((on_y_pred ttl true (on_y_true ttl true s pt t1).1 pp t2).1.sink
        = s.sink ++ [⟨key, vt, vp, |vt - vp|⟩]
      ∧ lookupKey
          (on_y_pred ttl true (on_y_true ttl true s pt t1).1 pp t2).1.buffer
          key = none
      ∧ lookupKey
          (on_y_pred ttl true (on_y_true ttl true s pt t1).1 pp t2).1.buffer_ts
          key = none)
    ∧ ((on_y_true ttl true (on_y_pred ttl true s pp t1).1 pt t2).1.sink
        = s.sink ++ [⟨key, vt, vp, |vt - vp|⟩]
      ∧ lookupKey
          (on_y_true ttl true (on_y_pred ttl true s pp t1).1 pt t2).1.buffer
          key = none
      ∧ lookupKey
          (on_y_true ttl true (on_y_pred ttl true s pp t1).1 pt t2).1.buffer_ts
          key = none) := by
  have hBnone : lookupKey (s.buffer.filter
      (fun q => decide (q.1 ∉ expiredIds s.buffer_ts t1 ttl))) key = none :=
    lookupKey_filter_of_none _ hb
  have h1t : (on_y_true ttl true s pt t1).1
      = { buffer := s.buffer.filter
            (fun q => decide (q.1 ∉ expiredIds s.buffer_ts t1 ttl))
            ++ [(key, ⟨some vt, none⟩)]
          buffer_ts := s.buffer_ts.filter
            (fun q => decide (q.1 ∉ expiredIds s.buffer_ts t1 ttl))
            ++ [(key, t1)]
          sink := s.sink } := by
    rw [on_y_true_some ttl s t1 hdt]
    exact fresh_true_state vt t1 ttl httl hb ht
  have h1p : (on_y_pred ttl true s pp t1).1
      = { buffer := s.buffer.filter
            (fun q => decide (q.1 ∉ expiredIds s.buffer_ts t1 ttl))
            ++ [(key, ⟨none, some vp⟩)]
          buffer_ts := s.buffer_ts.filter
            (fun q => decide (q.1 ∉ expiredIds s.buffer_ts t1 ttl))
            ++ [(key, t1)]
          sink := s.sink } := by
    rw [on_y_pred_some ttl s t1 hdp]
    exact fresh_pred_state vp t1 ttl httl hb ht
  have hlt : lookupKey (on_y_true ttl true s pt t1).1.buffer key
      = some ⟨some vt, none⟩ := by
    rw [h1t]
    exact (lookupKey_append_of_none _ hBnone).trans (by simp)
  have hlp : lookupKey (on_y_pred ttl true s pp t1).1.buffer key
      = some ⟨none, some vp⟩ := by
    rw [h1p]
    exact (lookupKey_append_of_none _ hBnone).trans (by simp)
  have h2t : (on_y_pred ttl true (on_y_true ttl true s pt t1).1 pp t2).1
      = { buffer := (eraseKey (on_y_true ttl true s pt t1).1.buffer key).filter
            (fun q => decide (q.1 ∉ expiredIds
              (eraseKey (on_y_true ttl true s pt t1).1.buffer_ts key) t2 ttl))
          buffer_ts :=
            (eraseKey (on_y_true ttl true s pt t1).1.buffer_ts key).filter
            (fun q => decide (q.1 ∉ expiredIds
              (eraseKey (on_y_true ttl true s pt t1).1.buffer_ts key) t2 ttl))
          sink := (on_y_true ttl true s pt t1).1.sink
            ++ [⟨key, vt, vp, |vt - vp|⟩] } := by
    rw [on_y_pred_some ttl _ t2 hdp]
    exact join_pred_state vp t2 ttl hlt
  have h2p : (on_y_true ttl true (on_y_pred ttl true s pp t1).1 pt t2).1
      = { buffer := (eraseKey (on_y_pred ttl true s pp t1).1.buffer key).filter
            (fun q => decide (q.1 ∉ expiredIds
              (eraseKey (on_y_pred ttl true s pp t1).1.buffer_ts key) t2 ttl))
          buffer_ts :=
            (eraseKey (on_y_pred ttl true s pp t1).1.buffer_ts key).filter
            (fun q => decide (q.1 ∉ expiredIds
              (eraseKey (on_y_pred ttl true s pp t1).1.buffer_ts key) t2 ttl))
          sink := (on_y_pred ttl true s pp t1).1.sink
            ++ [⟨key, vt, vp, |vt - vp|⟩] } := by
    rw [on_y_true_some ttl _ t2 hdt]
    exact join_true_state vt t2 ttl hlp
  refine ⟨⟨?_, ?_, ?_⟩, ?_, ?_, ?_⟩
  · rw [h2t, h1t]
  · rw [h2t]
    exact lookupKey_filter_of_none _ (lookupKey_eraseKey_self ..)
  · rw [h2t]
    exact lookupKey_filter_of_none _ (lookupKey_eraseKey_self ..)
  · rw [h2p, h1p]
  · rw [h2p]
    exact lookupKey_filter_of_none _ (lookupKey_eraseKey_self ..)
  · rw [h2p]
    exact lookupKey_filter_of_none _ (lookupKey_eraseKey_self ..)

/-- Witness for C1: Scenario A of the spec — TTL 600, truth 142.0 at t=0 and
predicted 138.5 at t=5 for identifier `"17000.1"` give the single row
`("17000.1", 142.0, 138.5, 3.5)` and an empty store. -/
theorem claim_C1_join_completeness_witness :
    ((0 : ℚ) ≤ 600 ∧ (5 : ℚ) - 0 ≤ 600)
    ∧ (on_y_pred 600 true (on_y_true 600 true initState
          (Payload.obj [("id", JVal.jstr "17000.1"), ("body", JVal.jfloat 142)]) 0).1
          (Payload.obj [("id", JVal.jstr "17000.1"), ("body", JVal.jfloat 138.5)]) 5).1.sink
        = [⟨"17000.1", 142, 138.5, 3.5⟩] := by
  refine ⟨⟨by norm_num, by norm_num⟩, ?_⟩
  have h := (claim_C1_join_completeness 600 0 5 initState
    (Payload.obj [("id", JVal.jstr "17000.1"), ("body", JVal.jfloat 142)])
    (Payload.obj [("id", JVal.jstr "17000.1"), ("body", JVal.jfloat 138.5)])
    "17000.1" 142 138.5
    (by norm_num) (by norm_num) rfl rfl rfl rfl).1.1
  rw [h]
  have habs : |(142 : ℚ) - 138.5| = 3.5 := by
    rw [abs_of_nonneg (by norm_num : (0 : ℚ) ≤ 142 - 138.5)]
    norm_num
  rw [habs]
  rfl

/-- Claim C3: from a state where the identifier is fresh, truth-then-predicted
and predicted-then-truth with the same timestamps produce identical results —
the same reconciled row, the same final store, the same acknowledgments. -/
theorem claim_C3_order_independence (ttl t1 t2 : ℚ) (s : MetricState)
    (pt pp : Payload) (key : String) (vt vp : ℚ)
    (httl : 0 ≤ ttl)
    (hdt : decodeMsg pt = some (key, vt))
    (hdp : decodeMsg pp = some (key, vp))
    (hb : lookupKey s.buffer key = none)
    (ht : lookupKey s.buffer_ts key = none) :
    on_y_pred ttl true (on_y_true ttl true s pt t1).1 pp t2
      = on_y_true ttl true (on_y_pred ttl true s pp t1).1 pt t2 := by
  have hBnone : lookupKey (s.buffer.filter
      (fun q => decide (q.1 ∉ expiredIds s.buffer_ts t1 ttl))) key = none :=
    lookupKey_filter_of_none _ hb
  have hTnone : lookupKey (s.buffer_ts.filter
      (fun q => decide (q.1 ∉ expiredIds s.buffer_ts t1 ttl))) key = none :=
    lookupKey_filter_of_none _ ht
  have h1t : (on_y_true ttl true s pt t1).1
      = { buffer := s.buffer.filter
            (fun q => decide (q.1 ∉ expiredIds s.buffer_ts t1 ttl))
            ++ [(key, ⟨some vt, none⟩)]
          buffer_ts := s.buffer_ts.filter
            (fun q => decide (q.1 ∉ expiredIds s.buffer_ts t1 ttl))
            ++ [(key, t1)]
          sink := s.sink } := by
    rw [on_y_true_some ttl s t1 hdt]
    exact fresh_true_state vt t1 ttl httl hb ht
  have h1p : (on_y_pred ttl true s pp t1).1
      = { buffer := s.buffer.filter
            (fun q => decide (q.1 ∉ expiredIds s.buffer_ts t1 ttl))
            ++ [(key, ⟨none, some vp⟩)]
          buffer_ts := s.buffer_ts.filter
            (fun q => decide (q.1 ∉ expiredIds s.buffer_ts t1 ttl))
            ++ [(key, t1)]
          sink := s.sink } := by
    rw [on_y_pred_some ttl s t1 hdp]
    exact fresh_pred_state vp t1 ttl httl hb ht
  have hlt : lookupKey (on_y_true ttl true s pt t1).1.buffer key
      = some ⟨some vt, none⟩ := by
    rw [h1t]
    exact (lookupKey_append_of_none _ hBnone).trans (by simp)
  have hlp : lookupKey (on_y_pred ttl true s pp t1).1.buffer key
      = some ⟨none, some vp⟩ := by
    rw [h1p]
    exact (lookupKey_append_of_none _ hBnone).trans (by simp)
  rw [on_y_pred_some ttl _ t2 hdp, on_y_true_some ttl _ t2 hdt,
    join_pred_state vp t2 ttl hlt, join_true_state vt t2 ttl hlp, h1t, h1p]
  simp [eraseKey_append, eraseKey_of_none hBnone, eraseKey_of_none hTnone]

/-- Witness for C3 at TTL 600, identifier `"A"`, values 2 and 7,
timestamps 0 and 5. -/
theorem claim_C3_order_independence_witness :
    on_y_pred 600 true (on_y_true 600 true initState
        (Payload.obj [("id", JVal.jstr "A"), ("body", JVal.jfloat 2)]) 0).1
        (Payload.obj [("id", JVal.jstr "A"), ("body", JVal.jfloat 7)]) 5
      = on_y_true 600 true (on_y_pred 600 true initState
        (Payload.obj [("id", JVal.jstr "A"), ("body", JVal.jfloat 7)]) 0).1
        (Payload.obj [("id", JVal.jstr "A"), ("body", JVal.jfloat 2)]) 5 :=
  claim_C3_order_independence 600 0 5 initState
    (Payload.obj [("id", JVal.jstr "A"), ("body", JVal.jfloat 2)])
    (Payload.obj [("id", JVal.jstr "A"), ("body", JVal.jfloat 7)])
    "A" 2 7 (by norm_num) rfl rfl rfl rfl

/-- Claim C6: a message whose payload fails to decode (malformed JSON,
missing `id`, missing `body`, or a body `float(...)` rejects) is nacked with
requeue by both handlers and the whole state — buffer, timestamp map and
sink — is left exactly as it was. -/
theorem claim_C6_decode_failure (ttl : ℚ) (sinkOk : Bool) (s : MetricState)
    (p : Payload) (now : ℚ) (hdec : decodeMsg p = none) :
    on_y_true ttl sinkOk s p now = (s, Ack.nackRequeue)
    ∧ on_y_pred ttl sinkOk s p now = (s, Ack.nackRequeue) :=
  ⟨on_y_true_decode_fail ttl sinkOk s now hdec,
   on_y_pred_decode_fail ttl sinkOk s now hdec⟩

/-- Witness for C6 at a payload with a non-numeric body. -/
theorem claim_C6_decode_failure_witness :
    on_y_true 600 true initState
        (Payload.obj [("id", JVal.jstr "A"), ("body", JVal.jnull)]) 0
      = (initState, Ack.nackRequeue)
    ∧ on_y_pred 600 true initState
        (Payload.obj [("id", JVal.jstr "A"), ("body", JVal.jnull)]) 0
      = (initState, Ack.nackRequeue) :=
  claim_C6_decode_failure 600 true initState _ 0 (by decide)

end Metric
